import Mathlib

/-!
Verification of the URL-handling and protocol-client core of the
gemini-portal web proxy (geminiportal/urls.py, geminiportal/protocols/,
geminiportal/utils.py).

The Python code is shallowly embedded: strings are modelled as Lean
strings (lists of characters), byte strings as lists of UInt8, and
raising an exception as returning an error value.  The embedding of
URL parsing follows CPython urllib.parse (urlparse / urlunparse /
unquote_to_bytes) restricted as documented on each definition:
hosts written in bracket (IPv6) form are not modelled, the unicode
NFKC netloc check is omitted (all inputs of interest are ASCII), and
character lowering is ASCII-only, matching Lean Char.toLower.
-/

namespace GeminiPortal

/-! ## Small Python string helpers -/

/-- Python whitespace characters relevant to str.strip() / str.split()
(ASCII subset; the wire protocols in question are ASCII-framed). -/
def pyIsSpace (c : Char) : Bool :=
  c = ' ' || c = '\t' || c = '\n' || c = '\r' || c = '\x0b' || c = '\x0c'

/-- Python str.strip() on a character list (ASCII whitespace). -/
def pyStripChars (l : List Char) : List Char :=
  ((l.dropWhile pyIsSpace).reverse.dropWhile pyIsSpace).reverse

/-- Python str.strip() of a string. -/
def pyStrip (s : String) : String :=
  String.mk (pyStripChars s.data)

/-- Break a character list at the first occurrence of a separator
character: returns the part before it and, when the separator occurs,
the part after it.  This is the building block for Python
str.split(sep, 1) and for the presence test sep in s. -/
def breakAtChar (sep : Char) : List Char → List Char × Option (List Char)
  | [] => ([], none)
  | c :: rest =>
    if c = sep then ([], some rest)
    else
      let (a, b) := breakAtChar sep rest
      (c :: a, b)

/-- Python str.split(sep, maxsplit) for a one-character separator. -/
def pySplitCharMax (sep : Char) : Nat → List Char → List (List Char)
  | 0, l => [l]
  | Nat.succ k, l =>
    match breakAtChar sep l with
    | (_, none) => [l]
    | (a, some rest) => a :: pySplitCharMax sep k rest

/-- Splitting at the first occurrence of the three-character substring
percent-zero-nine, the percent-encoded tab separator used throughout
gopher URL handling.  Returns none when the substring does not occur,
modelling the Python guard tab-escape in s before s.split(tab-escape, 1). -/
def splitTab : List Char → Option (List Char × List Char)
  | '%' :: '0' :: '9' :: rest => some ([], rest)
  | c :: cs =>
    match splitTab cs with
    | some (a, b) => some (c :: a, b)
    | none => none
  | [] => none

/-- Decimal value of a list of ASCII digits (Python int() on a digit
string, no sign). -/
def digitsVal (l : List Char) : Nat :=
  l.foldl (fun acc c => acc * 10 + (c.toNat - 48)) 0

/-- Decimal rendering of a natural number as characters, modelling
Python str(int) as used in f-strings. -/
def natDecimal : Nat → List Char
  | n =>
    if h : n < 10 then [Char.ofNat (48 + n)]
    else natDecimal (n / 10) ++ [Char.ofNat (48 + n % 10)]
  decreasing_by exact Nat.div_lt_self (by omega) (by omega)

/-- Python truthiness-based x or y on an optional number: None and 0
are falsy (int(0) is falsy in Python). -/
def pyOrNat (x : Option Nat) (y : Option Nat) : Option Nat :=
  match x with
  | some n => if n = 0 then y else some n
  | none => y

/-- Python str.startswith on whole strings, computed on character
lists. -/
def pyStartsWith (s pre : String) : Bool :=
  pre.data.isPrefixOf s.data

/-- Python truthiness-based x or y on an optional string: None and
the empty string are falsy. -/
def pyOrStr (x : Option String) (y : String) : String :=
  match x with
  | some s => if s = "" then y else s
  | none => y

/-! ## urllib.parse embedding (the subset used by URLReference) -/

/-- Characters allowed in a URL scheme after the first letter
(CPython scheme_chars). -/
def isSchemeChar (c : Char) : Bool :=
  c.isAlpha || c.isDigit || c = '+' || c = '-' || c = '.'

/-- Scan for the scheme separator colon; all characters before it must
be scheme characters and the scheme must be nonempty. -/
def splitSchemeAux (acc : List Char) : List Char → Option (List Char × List Char)
  | [] => none
  | c :: rest =>
    if c = ':' then
      if acc.isEmpty then none else some (acc.reverse, rest)
    else if isSchemeChar c then splitSchemeAux (c :: acc) rest
    else none

/-- CPython urlsplit scheme extraction: the scheme must start with an
ASCII letter, consist of scheme characters, and end at the first
colon; it is lowercased.  When no valid scheme is present the whole
input is left untouched and the scheme is empty. -/
def splitScheme (l : List Char) : String × List Char :=
  match l with
  | [] => ("", [])
  | c :: _ =>
    if c.isAlpha then
      match splitSchemeAux [] l with
      | some (s, r) => (String.mk (s.map Char.toLower), r)
      | none => ("", l)
    else ("", l)

/-- A character that may appear inside a netloc (CPython _splitnetloc
stops at the first slash, question mark or hash). -/
def netlocChar (c : Char) : Bool :=
  !(c = '/' || c = '?' || c = '#')

/-- CPython _splitnetloc: when the remainder starts with two slashes,
the netloc runs up to the next slash, question mark or hash. -/
def splitNetloc (l : List Char) : List Char × List Char :=
  match l with
  | '/' :: '/' :: rest => (rest.takeWhile netlocChar, rest.dropWhile netlocChar)
  | _ => ([], l)

/-- The part of the netloc after the last at-sign (CPython rpartition
used to drop user info). -/
def afterLastAt (l : List Char) : List Char :=
  (l.reverse.takeWhile (fun c => c != '@')).reverse

/-- CPython _hostinfo and the hostname/port accessors: hostname is the
lowercased part before the first colon (None when empty), the port is
the digit string after it (None when empty, a parse failure when it is
not all ASCII digits or exceeds 65535).  The whole result is none when
accessing the port would raise ValueError.  Bracketed (IPv6) hosts are
not modelled and also yield none; they are rejected earlier by the
caller. -/
def hostPort (netloc : List Char) : Option (Option String × Option Nat) :=
  let hi := afterLastAt netloc
  let host := hi.takeWhile (fun c => c != ':')
  let portChars := (hi.dropWhile (fun c => c != ':')).tail
  let hostname : Option String :=
    if host.isEmpty then none else some (String.mk (host.map Char.toLower))
  if (hi.dropWhile (fun c => c != ':')).isEmpty then
    some (hostname, none)
  else if portChars.isEmpty then
    some (hostname, none)
  else if portChars.all Char.isDigit then
    let v := digitsVal portChars
    if v ≤ 65535 then some (hostname, some v) else none
  else none

/-! ## URLReference (geminiportal/urls.py) -/

/-- The deconstructed URL, mirroring the attributes set by
URLReference.__init__ in geminiportal/urls.py.  The params component
is always empty for the schemes this proxy handles, because none of
them are in CPython uses_params. -/
structure URLReference where
  scheme : String
  port : Option Nat
  hostname : Option String
  path : String
  params : String
  query : String
  fragment : String
  finger_request : String
  gopher_item_type : String
  gopher_selector : String
  gopher_search : String
  gopher_plus_string : String
deriving DecidableEq, Repr

/-- URLReference.DEFAULT_PORTS from geminiportal/urls.py. -/
def DEFAULT_PORTS (scheme : String) : Option Nat :=
  if scheme = "http" then some 80
  else if scheme = "https" then some 443
  else if scheme = "gopher" then some 70
  else if scheme = "gophers" then some 70
  else if scheme = "spartan" then some 300
  else if scheme = "gemini" then some 1965
  else if scheme = "text" then some 1961
  else if scheme = "finger" then some 79
  else if scheme = "nex" then some 1900
  else none

/-- URLReference.__init__ with base=None: deconstruct an absolute URL.
Follows CPython urlparse (lstrip of C0 controls and space, removal of
tab, CR and LF, scheme / netloc / fragment / query extraction, hostname
lowering and port validation) and then the post-authority handling for
finger and gopher URLs, including the two percent-zero-nine splits of
the gopher selector.  Returns none where the Python constructor would
raise (an invalid port).  URLs with a bracketed (IPv6) netloc are not
modelled and also return none. -/
def parseUrl (url : String) : Option URLReference :=
  let raw := url.data
  let u0 := raw.dropWhile (fun c => c.toNat ≤ 32)
  let u1 := u0.filter (fun c => !(c = '\t' || c = '\r' || c = '\n'))
  let (scheme, r1) := splitScheme u1
  let (netloc, r2) := splitNetloc r1
  if netloc.any (fun c => c = '[' || c = ']') then none
  else
    let (r3, fragOpt) := breakAtChar '#' r2
    let (r4, queryOpt) := breakAtChar '?' r3
    match hostPort netloc with
    | none => none
    | some (hostname, portOpt) =>
      let port := pyOrNat portOpt (DEFAULT_PORTS scheme)
      let path0 := String.mk r4
      let path1 := if path0 = "/" then "" else path0
      let sections := pySplitCharMax '/' 3 raw
      let finger_request :=
        if scheme = "finger" && sections.length = 4 then
          String.mk (sections.getD 3 [])
        else ""
      let gopherRaw : String × List Char :=
        if scheme = "gopher" || scheme = "gophers" then
          match sections.getD 3 [] with
          | [] => ("1", [])
          | c :: cs => (String.mk [c], cs)
        else ("", [])
      let (sel1, sea1, path2) :=
        match splitTab gopherRaw.2 with
        | some (a, b) => (a, b, String.mk a)
        | none => (gopherRaw.2, [], path1)
      let (sea2, plus2) :=
        match splitTab sea1 with
        | some (a, b) => (a, b)
        | none => (sea1, [])
      some
        { scheme := scheme
          port := port
          hostname := hostname
          path := path2
          params := ""
          query := String.mk (queryOpt.getD [])
          fragment := String.mk (fragOpt.getD [])
          finger_request := finger_request
          gopher_item_type := gopherRaw.1
          gopher_selector := String.mk sel1
          gopher_search := String.mk sea2
          gopher_plus_string := String.mk plus2 }

/-- URLReference.netloc: the normalized netloc, including the port
only when it differs from the scheme default.  When the port is shown
and the hostname is absent, the Python f-string renders None, which is
kept faithfully. -/
def netloc (u : URLReference) : String :=
  match u.port with
  | some p =>
    if p ≠ 0 ∧ DEFAULT_PORTS u.scheme ≠ some p then
      (match u.hostname with | some h => h | none => "None") ++ ":" ++ String.mk (natDecimal p)
    else
      match u.hostname with
      | some h => h
      | none => ""
  | none =>
    match u.hostname with
    | some h => h
    | none => ""

/-- URLReference.get_finger_path. -/
def get_finger_path (u : URLReference) : String :=
  if u.finger_request ≠ "" then "/" ++ u.finger_request else ""

/-- URLReference.get_gopher_path: reassemble the selector, search and
plus strings with the percent-encoded tab separator. -/
def get_gopher_path (u : URLReference) : String :=
  let selector :=
    if u.gopher_plus_string ≠ "" then
      u.gopher_selector ++ "%09" ++ u.gopher_search ++ "%09" ++ u.gopher_plus_string
    else if u.gopher_search ≠ "" then
      u.gopher_selector ++ "%09" ++ u.gopher_search
    else u.gopher_selector
  if selector ≠ "" ∧ selector ≠ "/" then "/" ++ u.gopher_item_type ++ selector
  else if u.gopher_item_type ≠ "1" then "/" ++ u.gopher_item_type
  else ""

/-- CPython urlunparse/urlunsplit on the six components (params are
joined with a semicolon when present; our schemes always carry empty
params).  Computed on the character lists of the components. -/
def urlunparseEmbed (scheme nloc path params query fragment : String) : String :=
  let url0 := if params ≠ "" then path.data ++ ';' :: params.data else path.data
  let url1 :=
    if nloc ≠ "" ∨ (url0 ≠ [] ∧ url0.take 2 = ['/', '/']) then
      '/' :: '/' :: nloc.data ++ (if url0 ≠ [] ∧ url0.take 1 ≠ ['/'] then '/' :: url0 else url0)
    else url0
  let url2 := if scheme ≠ "" then scheme.data ++ ':' :: url1 else url1
  let url3 := if query ≠ "" then url2 ++ '?' :: query.data else url2
  String.mk (if fragment ≠ "" then url3 ++ '#' :: fragment.data else url3)

/-- URLReference.get_url: scheme-appropriate serialization, with the
finger and gopher schemes bypassing generic query/fragment handling. -/
def get_url (u : URLReference) (includeQuery : Bool := true) (includeFragment : Bool := true) :
    String :=
  if u.scheme = "finger" then
    u.scheme ++ "://" ++ netloc u ++ get_finger_path u
  else if u.scheme = "gopher" ∨ u.scheme = "gophers" then
    u.scheme ++ "://" ++ netloc u ++ get_gopher_path u
  else
    let q := if includeQuery then u.query else ""
    let f := if includeFragment then u.fragment else ""
    urlunparseEmbed u.scheme (netloc u) u.path u.params q f

/-- Errors raised by URLReference.conn_info. -/
inductive UrlError
  | missingPort
  | missingHost
deriving DecidableEq, Repr

/-- URLReference.conn_info: the connection target, raising when the
port or the hostname is falsy (absent, zero or empty). -/
def conn_info (u : URLReference) : Except UrlError (String × Nat) :=
  match u.port with
  | none => .error .missingPort
  | some p =>
    if p = 0 then .error .missingPort
    else
      match u.hostname with
      | none => .error .missingHost
      | some h => if h = "" then .error .missingHost else .ok (h, p)

/-! ## unquote_to_bytes and the gopher wire request -/

/-- Hexadecimal digit test covering both cases, as accepted by the
CPython _hextobyte table. -/
def pyIsHexChar (c : Char) : Bool :=
  c.isDigit || ('a' ≤ c ∧ c ≤ 'f') || ('A' ≤ c ∧ c ≤ 'F')

/-- Value of one hexadecimal digit character. -/
def hexVal (c : Char) : Nat :=
  if c.isDigit then c.toNat - 48
  else if 'a' ≤ c then c.toNat - 87
  else c.toNat - 55

/-- UTF-8 encoding of one character (CPython str.encode of the string
before percent-unquoting). -/
def charUtf8 (c : Char) : List UInt8 :=
  let n := c.toNat
  if n < 0x80 then [UInt8.ofNat n]
  else if n < 0x800 then
    [UInt8.ofNat (0xC0 + n / 64), UInt8.ofNat (0x80 + n % 64)]
  else if n < 0x10000 then
    [UInt8.ofNat (0xE0 + n / 4096), UInt8.ofNat (0x80 + (n / 64) % 64),
      UInt8.ofNat (0x80 + n % 64)]
  else
    [UInt8.ofNat (0xF0 + n / 262144), UInt8.ofNat (0x80 + (n / 4096) % 64),
      UInt8.ofNat (0x80 + (n / 64) % 64), UInt8.ofNat (0x80 + n % 64)]

/-- urllib.parse.unquote_to_bytes on a character list: the string is
UTF-8 encoded and every percent sign followed by two hexadecimal
digits becomes the corresponding byte; a percent sign not followed by
two hexadecimal digits stays literal.  Since the percent sign and the
hexadecimal digits are ASCII, scanning characters is equivalent to
CPython scanning the encoded bytes. -/
def pyUnquoteChars : List Char → List UInt8
  | [] => []
  | '%' :: a :: b :: rest2 =>
    if pyIsHexChar a ∧ pyIsHexChar b then
      UInt8.ofNat (hexVal a * 16 + hexVal b) :: pyUnquoteChars rest2
    else charUtf8 '%' ++ pyUnquoteChars (a :: b :: rest2)
  | c :: rest => charUtf8 c ++ pyUnquoteChars rest

/-- URLReference.get_gopher_request: assemble the request string with
percent-encoded tab separators (rewriting a plus string that is
exactly the query marker into an info request) and percent-decode the
whole line to raw bytes. -/
def get_gopher_request (u : URLReference) : List UInt8 :=
  let tabE : List Char := ['%', '0', '9']
  let crlf : List Char := ['\r', '\n']
  let req : List Char :=
    if u.gopher_plus_string = "?" then
      u.gopher_selector.data ++ tabE ++ u.gopher_search.data ++ tabE ++ ['!'] ++ crlf
    else if u.gopher_plus_string ≠ "" then
      u.gopher_selector.data ++ tabE ++ u.gopher_search.data ++ tabE ++
        u.gopher_plus_string.data ++ crlf
    else if u.gopher_search ≠ "" then
      u.gopher_selector.data ++ tabE ++ u.gopher_search.data ++ crlf
    else u.gopher_selector.data ++ crlf
  pyUnquoteChars req

/-! ## Access policy (geminiportal/protocols/base.py) -/

/-- Python regex dot outside DOTALL mode: any character except a
newline. -/
def reAnyChar (c : Char) : Bool :=
  c != '\n'

/-- Match one pattern character of a blocked-host entry against one
subject character, case-insensitively (re.I).  The dots inside the
configured host names are interpolated unescaped into the pattern, so
they match any character except a newline. -/
def rePatChar (p c : Char) : Bool :=
  if p = '.' then reAnyChar c else p.toLower = c.toLower

/-- Match the tail of the blocked-host regex: the host pattern itself,
an optional literal trailing dot, then the end anchor (which in Python
also matches just before a final newline). -/
def coreMatch : List Char → List Char → Bool
  | [], rest => rest = [] || rest = ['\n'] || rest = ['.'] || rest = ['.', '\n']
  | p :: ps, c :: cs => rePatChar p c && coreMatch ps cs
  | _ :: _, [] => false

/-- The compiled pattern for one BLOCKED_HOSTS entry applied with
re.match: an optional nonempty prefix ending in a literal dot, the
host pattern, an optional trailing dot, and the end anchor.  Regex
backtracking is modelled as existence of an accepting split. -/
def matchBlocked (pat s : List Char) : Bool :=
  coreMatch pat s ||
    (List.range s.length).any fun i =>
      decide (1 ≤ i) && (s.take i).all reAnyChar &&
        (match s.drop i with
          | '.' :: rest => coreMatch pat rest
          | _ => false)

/-- BLOCKED_HOSTS from geminiportal/protocols/base.py. -/
def BLOCKED_HOSTS : List String :=
  ["vger.cloud", "warpengineer.space", "michaelnordmeyer.com"]

/-- ALLOWED_PORTS from geminiportal/protocols/base.py: the discrete
ports plus the two contiguous ranges 1960-2020 and 7000-7099. -/
def ALLOWED_PORTS (p : Nat) : Bool :=
  p = 70 || p = 77 || p = 79 || p = 300 || p = 301 || p = 3000 || p = 3333 || p = 1900 ||
    (1960 ≤ p && p ≤ 2020) || (7000 ≤ p && p ≤ 7099) || p = 8070

/-- The two policy rejections raised by BaseRequest.clean. -/
inductive CleanError
  | hostBlocked
  | portNotAllowed
deriving DecidableEq, Repr

/-- BaseRequest.clean: reject blocked hosts first, then ports outside
the allowed set. -/
def clean (host : String) (port : Nat) : Except CleanError Unit :=
  if BLOCKED_HOSTS.any fun h => matchBlocked h.data host.data then .error .hostBlocked
  else if !ALLOWED_PORTS port then .error .portNotAllowed
  else .ok ()

/-- Everything that can abort BaseRequest.__init__ before a connection
exists. -/
inductive RequestError
  | url (e : UrlError)
  | policy (e : CleanError)
deriving DecidableEq, Repr

/-- BaseRequest.__init__: resolve the connection target from the URL,
then run the access policy.  Only an ok value carries a host/port pair
that a later fetch could connect to; on an error no request object
exists, so no DNS resolution or connection attempt can follow. -/
def mkRequest (u : URLReference) : Except RequestError (String × Nat) :=
  match conn_info u with
  | .error e => .error (.url e)
  | .ok (h, p) =>
    match clean h p with
    | .error e => .error (.policy e)
    | .ok _ => .ok (h, p)

/-! ## Gopher and gopher+ fetch (geminiportal/protocols/gopher.py) -/

/-- asyncio StreamReader.readline on a decoded text stream: everything
up to and including the first newline, or the whole remainder at EOF. -/
def readLineChars : List Char → List Char × List Char
  | [] => ([], [])
  | c :: rest =>
    if c = '\n' then ([c], rest)
    else
      let (l, r) := readLineChars rest
      (c :: l, r)

/-- Python int() on a string: surrounding whitespace is stripped, an
optional sign precedes a nonempty run of ASCII digits.  (Underscore
digit grouping is not modelled.)  Returns none where int() raises
ValueError. -/
def pyInt (l : List Char) : Option Int :=
  let t := pyStripChars l
  match t with
  | '+' :: ds =>
    if ds ≠ [] ∧ ds.all Char.isDigit then some (digitsVal ds) else none
  | '-' :: ds =>
    if ds ≠ [] ∧ ds.all Char.isDigit then some (-(digitsVal ds : Int)) else none
  | ds =>
    if ds ≠ [] ∧ ds.all Char.isDigit then some (digitsVal ds) else none

/-- Python exceptions that the embedded protocol code can raise. -/
inductive PyExc
  | indexError
  | valueError (msg : String)
deriving DecidableEq, Repr

/-- The fields GopherPlusResponse.__init__ stores, together with the
rest of the stream, which is the source the body is later read from
(the declared data length is stored but deliberately not used for
framing). -/
structure GopherPlusResponse where
  status : String
  meta : String
  data_length : Int
  rest : String
deriving DecidableEq, Repr

/-- Result of GopherRequest.fetch. -/
inductive GopherFetchResult
  | plain (rest : String)
  | plus (r : GopherPlusResponse)
deriving DecidableEq, Repr

def gopherPlusHeaderMsg : String :=
  "The server did not respond with a valid Gopher+ header."

/-- GopherRequest.fetch after the request line has been written, on a
decoded text stream: without a plus string the whole stream is the
body; with one, the first line is parsed as a gopher+ header.  A
leading plus sign yields an empty success status; a leading minus sign
makes the code read one more line whose first character is the status
(IndexError when the stream is already exhausted); any other first
character is a protocol error.  In both header branches the remainder
of the first line must parse as an integer data length. -/
def gopherFetch (plusString : String) (stream : String) : Except PyExc GopherFetchResult :=
  if plusString = "" then .ok (.plain stream)
  else
    let (rawHeader, rest1) := readLineChars stream.data
    if rawHeader.take 1 = ['+'] then
      match pyInt (rawHeader.drop 1) with
      | none => .error (.valueError "invalid literal for int")
      | some n => .ok (.plus ⟨"", "", n, String.mk rest1⟩)
    else if rawHeader.take 1 = ['-'] then
      let (statusLine, rest2) := readLineChars rest1
      match statusLine with
      | [] => .error .indexError
      | c :: cs =>
        match pyInt (rawHeader.drop 1) with
        | none => .error (.valueError "invalid literal for int")
        | some n => .ok (.plus ⟨String.mk [c], String.mk (pyStripChars cs), n, String.mk rest2⟩)
    else .error (.valueError gopherPlusHeaderMsg)

/-! ## Bounded and streaming body reads (geminiportal/protocols/base.py) -/

def MAX_BODY_SIZE : Nat := 2 ^ 20

def CHUNK_SIZE : Nat := 2 ^ 14

/-- What BaseResponse.get_body produces: either the whole body (EOF
reached first) or ProxyResponseSizeError carrying the bytes read so
far. -/
inductive GetBodyResult
  | ok (body : List UInt8)
  | tooLarge (firstBytes : List UInt8)
deriving DecidableEq, Repr

/-- The observable outcome of BaseResponse.get_body: the result, the
bytes still unread in the stream, and whether the connection was
closed. -/
structure GetBodyOutcome where
  result : GetBodyResult
  remaining : List UInt8
  closed : Bool
deriving DecidableEq, Repr

/-- BaseResponse.get_body: readexactly(MAX_BODY_SIZE) either consumes
exactly the bound and raises ProxyResponseSizeError with those bytes,
leaving the connection open, or hits EOF first and returns the whole
stream, closing the connection. -/
def get_body (stream : List UInt8) : GetBodyOutcome :=
  if MAX_BODY_SIZE ≤ stream.length then
    ⟨.tooLarge (stream.take MAX_BODY_SIZE), stream.drop MAX_BODY_SIZE, false⟩
  else ⟨.ok stream, [], true⟩

/-- BaseResponse.stream_body: the sequence of chunks read with
read(CHUNK_SIZE) until the stream is exhausted (after which the
connection is closed). -/
def stream_body (s : List UInt8) : List (List UInt8) :=
  if h : s.isEmpty then []
  else s.take CHUNK_SIZE :: stream_body (s.drop CHUNK_SIZE)
termination_by s.length
decreasing_by
  simp [List.isEmpty_iff] at h
  have : 0 < s.length := List.length_pos.mpr h
  simp [List.length_drop, CHUNK_SIZE]
  omega

/-- utils.prepend_bytes_to_iterator: yield the partial bytes first,
then the chunks of the underlying iterator. -/
def prepend_bytes_to_iterator (firstBytes : List UInt8) (it : List (List UInt8)) :
    List (List UInt8) :=
  firstBytes :: it

/-! ## Response header parsing (old and new) -/

/-- Python str.split(maxsplit=1) with no separator: skip leading
whitespace, take the first run of non-whitespace as the token, then
skip the following whitespace run; the remainder, when nonempty, is
the second element. -/
def pySplitWsOnce (l : List Char) : List (List Char) :=
  let l1 := l.dropWhile pyIsSpace
  if l1.isEmpty then []
  else
    let tok := l1.takeWhile fun c => !pyIsSpace c
    let rest := (l1.dropWhile fun c => !pyIsSpace c).dropWhile pyIsSpace
    if rest.isEmpty then [tok] else [tok, rest]

/-- BaseRequest.parse_response_header in geminiportal/protocols/base.py
(the current parser): strip the decoded header and split it on the
first whitespace run; a single token gets an empty meta, but an empty
split result flows into the two-name tuple unpacking, which raises. -/
def parse_response_header (rawHeader : String) : Except PyExc (String × String) :=
  match pySplitWsOnce (pyStripChars rawHeader.data) with
  | [] => .error (.valueError "not enough values to unpack (expected 2, got 0)")
  | [a] => .ok (String.mk a, "")
  | [a, b] => .ok (String.mk a, String.mk b)
  | _ => .error (.valueError "too many values to unpack (expected 2)")

/-- BaseRequest.parse_header in the older geminiportal/protocols.py
module, which handles the empty split explicitly and returns a pair of
empty strings. -/
def parse_header_old (rawHeader : String) : String × String :=
  match pySplitWsOnce (pyStripChars rawHeader.data) with
  | [] => ("", "")
  | [a] => (String.mk a, "")
  | a :: b :: _ => (String.mk a, String.mk b)

/-! ## Response charset fields (per-protocol constructors) -/

/-- Worker for Python str.split(sep) without a maxsplit bound. -/
def pySplitAllCharAux (sep : Char) (acc : List Char) : List Char → List (List Char)
  | [] => [acc.reverse]
  | c :: rest =>
    if c = sep then acc.reverse :: pySplitAllCharAux sep [] rest
    else pySplitAllCharAux sep (c :: acc) rest

/-- Python str.split(sep) without a maxsplit bound. -/
def pySplitAllChar (sep : Char) (l : List Char) : List (List Char) :=
  pySplitAllCharAux sep [] l

/-- ASCII lowering of a string (Python str.lower on the ASCII keys in
question). -/
def pyLowerStr (s : String) : String :=
  String.mk (s.data.map Char.toLower)

/-- BaseResponse.parse_meta: split the MIME string from the extra
parameters at the first semicolon, strip the MIME type, and collect
every key=value parameter with a lowercased key.  Parameters are kept
in assignment order; a repeated key overrides the earlier one, so
lookups take the last binding. -/
def parse_meta (meta : String) : String × List (String × String) :=
  let (mt, extraOpt) := breakAtChar ';' meta.data
  let extra := extraOpt.getD []
  let params :=
    (pySplitAllChar ';' extra).foldl
      (fun acc param =>
        match breakAtChar '=' (pyStripChars param) with
        | (_, none) => acc
        | (k, some v) => acc ++ [(pyLowerStr (String.mk k), String.mk v)])
      []
  (pyStrip (String.mk mt), params)

/-- Dictionary get with a default on the assignment-ordered parameter
list (the last binding for a key wins, as in a Python dict). -/
def dictGet (params : List (String × String)) (key d : String) : String :=
  match params.reverse.find? fun kv => kv.1 = key with
  | some kv => kv.2
  | none => d

/-- The per-request options object constructed in app.py; its charset
is the charset query parameter or None. -/
structure ProxyOptions where
  charset : Option String
deriving DecidableEq, Repr

/-- FingerResponse.__init__ charset field: the source assigns None. -/
def finger_response_charset : Option String := none

/-- GopherResponse.__init__ charset field. -/
def gopher_response_charset : Option String := some "UTF-8"

/-- GopherPlusResponse.__init__ charset field. -/
def gopher_plus_response_charset : Option String := some "UTF-8"

/-- NexResponse.__init__ charset field: the charset option if truthy,
else UTF-8. -/
def nex_response_charset (opts : ProxyOptions) : Option String :=
  some (pyOrStr opts.charset "UTF-8")

/-- GeminiResponse.__init__ charset field: for a success status the
charset option, else the charset MIME parameter, else UTF-8; for any
other status the charset option or UTF-8. -/
def gemini_response_charset (opts : ProxyOptions) (status meta : String) : Option String :=
  if pyStartsWith status "2" then
    some (pyOrStr opts.charset (dictGet (parse_meta meta).2 "charset" "UTF-8"))
  else some (pyOrStr opts.charset "UTF-8")

/-- SpartanResponse.__init__ charset field: the charset MIME parameter
or UTF-8. -/
def spartan_response_charset (meta : String) : Option String :=
  some (dictGet (parse_meta meta).2 "charset" "UTF-8")

/-- TxtResponse.__init__ charset field: the charset MIME parameter or
UTF-8. -/
def txt_response_charset (meta : String) : Option String :=
  some (dictGet (parse_meta meta).2 "charset" "UTF-8")

/-! ## smart_decode (geminiportal/utils.py) -/

/-- Strict UTF-8 decoding of a byte list, as CPython bytes.decode with
its default strict error handling: rejects truncated sequences,
continuation-byte errors, overlong encodings, surrogates and values
above 0x10FFFF. -/
def utf8DecodeStrictAux : List UInt8 → Option (List Char)
  | [] => some []
  | b :: rest =>
    let n := b.toNat
    if n < 0x80 then (utf8DecodeStrictAux rest).map (Char.ofNat n :: ·)
    else if n < 0xC2 then none
    else if n < 0xE0 then
      match rest with
      | b1 :: rest1 =>
        if 0x80 ≤ b1.toNat ∧ b1.toNat < 0xC0 then
          (utf8DecodeStrictAux rest1).map
            (Char.ofNat ((n - 0xC0) * 64 + (b1.toNat - 0x80)) :: ·)
        else none
      | [] => none
    else if n < 0xF0 then
      match rest with
      | b1 :: b2 :: rest2 =>
        let lo1 := if n = 0xE0 then 0xA0 else 0x80
        let hi1 := if n = 0xED then 0x9F else 0xBF
        if lo1 ≤ b1.toNat ∧ b1.toNat ≤ hi1 ∧ 0x80 ≤ b2.toNat ∧ b2.toNat < 0xC0 then
          (utf8DecodeStrictAux rest2).map
            (Char.ofNat ((n - 0xE0) * 4096 + (b1.toNat - 0x80) * 64 + (b2.toNat - 0x80)) :: ·)
        else none
      | _ => none
    else if n < 0xF5 then
      match rest with
      | b1 :: b2 :: b3 :: rest3 =>
        let lo1 := if n = 0xF0 then 0x90 else 0x80
        let hi1 := if n = 0xF4 then 0x8F else 0xBF
        if lo1 ≤ b1.toNat ∧ b1.toNat ≤ hi1 ∧ 0x80 ≤ b2.toNat ∧ b2.toNat < 0xC0 ∧
            0x80 ≤ b3.toNat ∧ b3.toNat < 0xC0 then
          (utf8DecodeStrictAux rest3).map
            (Char.ofNat
              ((n - 0xF0) * 262144 + (b1.toNat - 0x80) * 4096 + (b2.toNat - 0x80) * 64 +
                (b3.toNat - 0x80)) :: ·)
        else none
      | _ => none
    else none

/-- Strict UTF-8 decoding to a string. -/
def utf8DecodeStrict (data : List UInt8) : Option String :=
  (utf8DecodeStrictAux data).map String.mk

/-- What chardet.detect returns, as far as smart_decode consumes it:
a confidence (a float, modelled as a rational, only compared against
one half) and the detected encoding name. -/
structure ChardetResult where
  confidence : ℚ
  encoding : String

/-- The external decoding facilities smart_decode relies on: decoding
with an arbitrary named codec under errors="replace", and the chardet
statistical detector.  Both are external libraries and are kept
abstract. -/
structure PyCodecs where
  decodeReplace : String → List UInt8 → String
  chardet : List UInt8 → ChardetResult

/-- The charset=None path of smart_decode: try a strict decode with
the default charset (UTF-8 at every call site); on UnicodeDecodeError
run chardet and use the detected charset only above confidence 0.5,
else the default, decoding with replacement characters. -/
def smartDecodeDefaultPath (env : PyCodecs) (data : List UInt8) : String × String :=
  match utf8DecodeStrict data with
  | some text => (text, "UTF-8")
  | none =>
    let r := env.chardet data
    let detected := if (1 : ℚ) / 2 < r.confidence then r.encoding else "UTF-8"
    (env.decodeReplace detected data, detected)

/-- utils.smart_decode: a truthy declared charset is used directly
(with replacement for invalid sequences); otherwise the default-path
heuristics run.  Returns the text and the charset actually used. -/
def smart_decode (env : PyCodecs) (data : List UInt8) (charset : Option String) :
    String × String :=
  match charset with
  | some cs => if cs = "" then smartDecodeDefaultPath env data else (env.decodeReplace cs data, cs)
  | none => smartDecodeDefaultPath env data

/-! ## Well-formed parsed addresses (for the round-trip property) -/

/-- Characters we admit in a hostname: lowercase ASCII reg-names as
produced by the parser (letters, digits, dot, hyphen).  Bracketed
IPv6 hosts are outside the model. -/
def hostnameChar (c : Char) : Bool :=
  (97 ≤ c.toNat && c.toNat ≤ 122) || (48 ≤ c.toNat && c.toNat ≤ 57) || c = '.' || c = '-'

/-- Characters that survive the urlsplit removal of tab, CR and LF. -/
def cleanChar (c : Char) : Bool :=
  !(c = '\t' || c = '\r' || c = '\n')

/-- The percent-encoded tab separator does not occur in the list. -/
def noTab (l : List Char) : Prop :=
  splitTab l = none

/-- Host and resolved port invariants shared by every parsed address
of a supported scheme: a nonempty lowercase reg-name hostname and a
resolved nonzero port within the 16-bit range. -/
def wfCommon (u : URLReference) : Prop :=
  (∃ h, u.hostname = some h ∧ h ≠ "" ∧ ∀ c ∈ h.data, hostnameChar c) ∧
    ∃ p, u.port = some p ∧ 0 < p ∧ p ≤ 65535

/-- Invariants of a parsed address of one of the generic hierarchical
schemes (gemini, spartan, text, nex): the path is empty or absolute
and has been normalized away from a bare slash, path and query carry
no delimiters that parsing would have consumed, params is empty, and
no component contains a character that urlsplit removes. -/
def wfGeneric (u : URLReference) : Prop :=
  (u.scheme = "gemini" ∨ u.scheme = "spartan" ∨ u.scheme = "text" ∨ u.scheme = "nex") ∧
    wfCommon u ∧
    (u.path = "" ∨ u.path.data.head? = some '/') ∧
    u.path ≠ "/" ∧
    (∀ c ∈ u.path.data, c ≠ '?' ∧ c ≠ '#' ∧ cleanChar c) ∧
    u.params = "" ∧
    (∀ c ∈ u.query.data, c ≠ '#' ∧ cleanChar c) ∧
    (∀ c ∈ u.fragment.data, cleanChar c)

/-- Invariants of a parsed finger address. -/
def wfFinger (u : URLReference) : Prop :=
  u.scheme = "finger" ∧ wfCommon u

/-- Invariants of a parsed gopher address: the item type is one
character, and the selector and search strings no longer contain the
percent-encoded tab separator (parsing split them away). -/
def wfGopher (u : URLReference) : Prop :=
  (u.scheme = "gopher" ∨ u.scheme = "gophers") ∧
    wfCommon u ∧
    u.gopher_item_type.data.length = 1 ∧
    noTab u.gopher_selector.data ∧
    noTab u.gopher_search.data

/-- Equivalence of two addresses on the components named by the
round-trip property: scheme, hostname and resolved port. -/
def sameCore (a b : URLReference) : Prop :=
  b.scheme = a.scheme ∧ b.hostname = a.hostname ∧ b.port = a.port

/-- The tail of parseUrl after the scheme and netloc have been split
off and the authority validated: fragment and query extraction, port
resolution, and the finger and gopher section handling.  The body is
letter-for-letter the suffix of parseUrl, abstracted over the already
determined scheme, hostname, explicit port, original character list
and post-authority remainder; parseUrl_serialized proves that parseUrl
on a serialized URL reduces to it. -/
def parseAfterAuthority (scheme : String) (hostname : Option String) (portOpt : Option Nat)
    (raw Tf : List Char) : URLReference :=
  let (r3, fragOpt) := breakAtChar '#' Tf
  let (r4, queryOpt) := breakAtChar '?' r3
  let port := pyOrNat portOpt (DEFAULT_PORTS scheme)
  let path0 := String.mk r4
  let path1 := if path0 = "/" then "" else path0
  let sections := pySplitCharMax '/' 3 raw
  let finger_request :=
    if scheme = "finger" && sections.length = 4 then
      String.mk (sections.getD 3 [])
    else ""
  let gopherRaw : String × List Char :=
    if scheme = "gopher" || scheme = "gophers" then
      match sections.getD 3 [] with
      | [] => ("1", [])
      | c :: cs => (String.mk [c], cs)
    else ("", [])
  let (sel1, sea1, path2) :=
    match splitTab gopherRaw.2 with
    | some (a, b) => (a, b, String.mk a)
    | none => (gopherRaw.2, [], path1)
  let (sea2, plus2) :=
    match splitTab sea1 with
    | some (a, b) => (a, b)
    | none => (sea1, [])
  { scheme := scheme
    port := port
    hostname := hostname
    path := path2
    params := ""
    query := String.mk (queryOpt.getD [])
    fragment := String.mk (fragOpt.getD [])
    finger_request := finger_request
    gopher_item_type := gopherRaw.1
    gopher_selector := String.mk sel1
    gopher_search := String.mk sea2
    gopher_plus_string := String.mk plus2 }

/-- A concrete well-formed gemini address used to witness the
round-trip theorem. -/
def c8WitnessAddr : URLReference :=
  { scheme := "gemini", port := some 1965, hostname := some "mozz.us", path := "/hello",
    params := "", query := "", fragment := "", finger_request := "",
    gopher_item_type := "", gopher_selector := "", gopher_search := "",
    gopher_plus_string := "" }

/-- A concrete well-formed finger address used to witness the
round-trip theorem. -/
def c8WitnessFinger : URLReference :=
  { scheme := "finger", port := some 79, hostname := some "mozz.us", path := "/michael",
    params := "", query := "", fragment := "", finger_request := "michael",
    gopher_item_type := "", gopher_selector := "", gopher_search := "",
    gopher_plus_string := "" }

/-- A concrete well-formed gopher address used to witness the
round-trip theorem. -/
def c8WitnessGopher : URLReference :=
  { scheme := "gopher", port := some 70, hostname := some "mozz.us", path := "hello",
    params := "", query := "", fragment := "", finger_request := "",
    gopher_item_type := "7", gopher_selector := "hello", gopher_search := "search",
    gopher_plus_string := "/data" }

/-- A concrete instantiation of the external decoding facilities, used
to witness the smart_decode theorem: decoding with a named codec is
irrelevant to the properties proved, and the detector reports
ISO-8859-1 with confidence three quarters. -/
def c5WitnessEnv : PyCodecs where
  decodeReplace := fun _ _ => ""
  chardet := fun _ => ⟨3 / 4, "ISO-8859-1"⟩

/-! ## Claim theorems -/

/-- C1: evaluating the URL deconstruction at the URL from the
repository's own test test_gopher_parse_search_data.  The parse splits
the post-authority section into item type 7 and selector hello, but
the second percent-tab split moves the remainder out of the search
field: the code produces search "search" and plus string "/data",
while the test (and the claim) require search "search%09/data". -/
theorem c1_gopher_selector_split_eval :
    parseUrl "gopher://mozz.us/7hello%09search%09/data" =
      some
        { scheme := "gopher"
          port := some 70
          hostname := some "mozz.us"
          path := "hello"
          params := ""
          query := ""
          fragment := ""
          finger_request := ""
          gopher_item_type := "7"
          gopher_selector := "hello"
          gopher_search := "search"
          gopher_plus_string := "/data" } := by
  decide

/-- C9 counterexample: an explicit port does not always take
precedence.  The URL gemini://mozz.us:0/ carries the explicit port 0,
but Python truthiness of url_parts.port treats 0 as absent, so the
resolved port is the protocol default 1965, not 0. -/
theorem c9_explicit_zero_port_counterexample :
    (parseUrl "gemini://mozz.us:0/").map URLReference.port = some (some 1965) ∧
      some (some 1965) ≠ some (some (0 : Nat)) := by
  constructor
  · decide
  · decide

/-- C9 (amended): resolving the connection target always yields a
port; a nonzero explicit port takes precedence, otherwise the
protocol default is applied (gemini 1965, text 1961, gopher and
gophers 70, finger 79, nex 1900, spartan 300); parsing
gemini://mozz.us/ resolves to mozz.us port 1965; and when the port or
the hostname is missing, conn_info fails with a missing-port or
missing-host error instead of returning a target. -/
theorem c9_port_resolution (u : URLReference) (p : Nat) (scheme : String) :
    (parseUrl "gemini://mozz.us/").map conn_info = some (.ok ("mozz.us", 1965)) ∧
      (DEFAULT_PORTS "gemini" = some 1965 ∧ DEFAULT_PORTS "text" = some 1961 ∧
        DEFAULT_PORTS "gopher" = some 70 ∧ DEFAULT_PORTS "gophers" = some 70 ∧
        DEFAULT_PORTS "finger" = some 79 ∧ DEFAULT_PORTS "nex" = some 1900 ∧
        DEFAULT_PORTS "spartan" = some 300) ∧
      (p ≠ 0 → pyOrNat (some p) (DEFAULT_PORTS scheme) = some p) ∧
      pyOrNat none (DEFAULT_PORTS scheme) = DEFAULT_PORTS scheme ∧
      (u.port = none → conn_info u = .error .missingPort) ∧
      (u.hostname = none → u.port = some p → p ≠ 0 → conn_info u = .error .missingHost) := by
  refine ⟨rfl, by decide, fun hp => ?_, rfl, fun h0 => ?_, fun hh hp hpz => ?_⟩
  · simp [pyOrNat, hp]
  · simp [conn_info, h0]
  · simp [conn_info, hp, hh, hpz]

/-- C9 witness: the amended resolution facts at concrete inputs: the
explicit nonzero port 1966 wins over the gemini default, and a parsed
record with a port but no hostname fails with the missing-host
error. -/
theorem c9_port_resolution_witness :
    pyOrNat (some 1966) (DEFAULT_PORTS "gemini") = some 1966 ∧
      conn_info
          { scheme := "gemini", port := some 1966, hostname := none, path := "", params := "",
            query := "", fragment := "", finger_request := "", gopher_item_type := "",
            gopher_selector := "", gopher_search := "", gopher_plus_string := "" } =
        .error .missingHost := by
  have h := c9_port_resolution
    { scheme := "gemini", port := some 1966, hostname := none, path := "", params := "",
      query := "", fragment := "", finger_request := "", gopher_item_type := "",
      gopher_selector := "", gopher_search := "", gopher_plus_string := "" } 1966 "gemini"
  exact ⟨h.2.2.1 (by decide), h.2.2.2.2.2 rfl rfl (by decide)⟩

/-- C4 counterexample: the finger response constructor stores None in
its charset field, so not every completed response carries a populated
charset. -/
theorem c4_finger_charset_counterexample :
    finger_response_charset = none ∧ finger_response_charset.isSome = false := by
  exact ⟨rfl, rfl⟩

/-- C4 (amended): every response constructor except finger populates
the charset field, defaulting to UTF-8 when the wire sends no charset
parameter; the finger response stores None (left absent so that text
decoding falls back to charset auto-detection). -/
theorem c4_charset_populated_except_finger :
    finger_response_charset = none ∧
      gopher_response_charset = some "UTF-8" ∧
      gopher_plus_response_charset = some "UTF-8" ∧
      (∀ opts : ProxyOptions, (nex_response_charset opts).isSome) ∧
      (∀ (opts : ProxyOptions) (status meta : String),
        (gemini_response_charset opts status meta).isSome) ∧
      (∀ meta : String, (spartan_response_charset meta).isSome ∧
        (txt_response_charset meta).isSome) ∧
      gemini_response_charset ⟨none⟩ "20" "text/gemini" = some "UTF-8" ∧
      spartan_response_charset "text/plain" = some "UTF-8" ∧
      nex_response_charset ⟨none⟩ = some "UTF-8" := by
  refine ⟨rfl, rfl, rfl, fun _ => rfl, fun opts status meta => ?_, fun _ => ⟨rfl, rfl⟩,
    rfl, rfl, rfl⟩
  unfold gemini_response_charset
  split <;> rfl

/-- C2 counterexample: a gopher+ response whose first line is the
error line -2 TRY AGAIN LATER does not produce a response with status
2; the code instead reads a second line for the status, finds the
stream exhausted, and raises (string indexing of an empty line). -/
theorem c2_error_first_line_counterexample :
    gopherFetch "!" "-2 TRY AGAIN LATER\r\n" = .error .indexError := by
  rfl

/-- readline returns a line whose first character is the first
character of the stream. -/
theorem readLineChars_take_one (l : List Char) : (readLineChars l).1.take 1 = l.take 1 := by
  cases l with
  | nil => rfl
  | cons c rest =>
    simp only [readLineChars]
    by_cases hc : c = '\n'
    · simp [hc]
    · simp [hc]

/-- readline consumes exactly one newline-terminated line. -/
theorem readLineChars_append_line (l body : List Char) (h : '\n' ∉ l) :
    readLineChars (l ++ '\n' :: body) = (l ++ ['\n'], body) := by
  induction l with
  | nil => simp [readLineChars]
  | cons c cs ih =>
    have hc : c ≠ '\n' := fun e => h (e ▸ List.mem_cons_self c cs)
    simp only [List.cons_append, readLineChars, if_neg hc, List.append_eq]
    rw [ih fun hm => h (List.mem_cons_of_mem _ hm)]

/-- C2 (amended): with a non-empty plus string, a response whose first
line declares an error length and whose second line is the status line
2 TRY AGAIN LATER yields status 2 and meta TRY AGAIN LATER with
nothing left in the stream; a response +120 followed by any body
yields the empty success status, stores the declared length 120, and
leaves exactly the body bytes as the stream regardless of that length;
and a first line starting with neither plus nor minus raises the
gopher+ protocol error. -/
theorem c2_gopher_plus_framing (plus : String) (hp : plus ≠ "") (body : String) :
    gopherFetch plus "-1\r\n2 TRY AGAIN LATER\r\n" =
        .ok (.plus ⟨"2", "TRY AGAIN LATER", 1, ""⟩) ∧
      gopherFetch plus ("+120\r\n" ++ body) = .ok (.plus ⟨"", "", 120, body⟩) ∧
      ∀ stream : String, (∀ c, stream.data.head? = some c → c ≠ '+' ∧ c ≠ '-') →
        gopherFetch plus stream = .error (.valueError gopherPlusHeaderMsg) := by
  refine ⟨?_, ?_, ?_⟩
  · unfold gopherFetch
    rw [if_neg hp]
    rfl
  · have h1 : readLineChars ("+120\r\n" ++ body).data = ("+120\r\n".data, body.data) := by
      rw [String.data_append]
      exact readLineChars_append_line "+120\r".data body.data (by decide)
    unfold gopherFetch
    rw [if_neg hp, h1]
    rfl
  · intro stream hhead
    unfold gopherFetch
    rw [if_neg hp]
    rcases hrl : readLineChars stream.data with ⟨rh, r1⟩
    have htake : rh.take 1 = stream.data.take 1 := by
      have := readLineChars_take_one stream.data
      rw [hrl] at this
      exact this
    cases hs : stream.data with
    | nil =>
      rw [hs] at htake
      simp only [List.take_nil] at htake
      dsimp only
      rw [htake, if_neg (by simp), if_neg (by simp)]
    | cons c rest =>
      rw [hs] at htake
      have hc := hhead c (by rw [hs]; rfl)
      simp only [List.take_succ_cons, List.take_zero] at htake
      dsimp only
      rw [htake, if_neg (by simp [hc.1]), if_neg (by simp [hc.2])]

/-- C2 witness: the amended framing facts at a concrete plus string
and concrete streams. -/
theorem c2_gopher_plus_framing_witness :
    gopherFetch "!" "-1\r\n2 TRY AGAIN LATER\r\n" =
        .ok (.plus ⟨"2", "TRY AGAIN LATER", 1, ""⟩) ∧
      gopherFetch "!" ("+120\r\n" ++ "abc") = .ok (.plus ⟨"", "", 120, "abc"⟩) ∧
      gopherFetch "!" "xhello\r\n" = .error (.valueError gopherPlusHeaderMsg) := by
  have h := c2_gopher_plus_framing "!" (by decide) "abc"
  refine ⟨h.1, h.2.1, h.2.2 "xhello\r\n" ?_⟩
  intro c hc
  simp only [List.head?] at hc
  cases hc
  decide

/-- Concatenating the chunks read by stream_body reproduces the
stream. -/
theorem stream_body_join (s : List UInt8) : (stream_body s).flatten = s := by
  generalize hn : s.length = n
  induction n using Nat.strong_induction_on generalizing s with
  | _ n ih =>
    rw [stream_body]
    split
    · next he =>
      rw [List.isEmpty_iff] at he
      simp [he]
    · next he =>
      rw [List.isEmpty_iff] at he
      rw [List.flatten_cons]
      have hlt : (s.drop CHUNK_SIZE).length < n := by
        subst hn
        rw [List.length_drop]
        have := List.length_pos.mpr he
        have hc : 0 < CHUNK_SIZE := by decide
        omega
      rw [ih _ hlt _ rfl]
      exact List.take_append_drop _ _

/-- C3: a stream longer than the body-size bound makes get_body raise
the size error carrying exactly the first MAX_BODY_SIZE bytes with the
connection left open, and prepending that payload to the subsequent
streaming read reproduces the original bytes exactly; a stream that
ends before the bound is returned whole (and the connection is
closed). -/
theorem c3_bounded_read_preserves_bytes (s : List UInt8) :
    (MAX_BODY_SIZE < s.length →
      get_body s = ⟨.tooLarge (s.take MAX_BODY_SIZE), s.drop MAX_BODY_SIZE, false⟩ ∧
      (s.take MAX_BODY_SIZE).length = MAX_BODY_SIZE ∧
      (prepend_bytes_to_iterator (s.take MAX_BODY_SIZE)
          (stream_body (s.drop MAX_BODY_SIZE))).flatten = s) ∧
    (s.length < MAX_BODY_SIZE → get_body s = ⟨.ok s, [], true⟩) := by
  constructor
  · intro h
    refine ⟨?_, ?_, ?_⟩
    · unfold get_body
      rw [if_pos (le_of_lt h)]
    · rw [List.length_take]
      omega
    · simp only [prepend_bytes_to_iterator, List.flatten_cons, stream_body_join]
      exact List.take_append_drop _ _
  · intro h
    unfold get_body
    rw [if_neg (by omega)]

/-- C3 witness: the overflow facts at a concrete stream one byte
longer than the bound. -/
theorem c3_bounded_read_witness :
    get_body (List.replicate (MAX_BODY_SIZE + 1) (0 : UInt8)) =
        ⟨.tooLarge ((List.replicate (MAX_BODY_SIZE + 1) (0 : UInt8)).take MAX_BODY_SIZE),
          (List.replicate (MAX_BODY_SIZE + 1) (0 : UInt8)).drop MAX_BODY_SIZE, false⟩ ∧
      (prepend_bytes_to_iterator
          ((List.replicate (MAX_BODY_SIZE + 1) (0 : UInt8)).take MAX_BODY_SIZE)
          (stream_body ((List.replicate (MAX_BODY_SIZE + 1) (0 : UInt8)).drop
            MAX_BODY_SIZE))).flatten =
        List.replicate (MAX_BODY_SIZE + 1) (0 : UInt8) := by
  have h := (c3_bounded_read_preserves_bytes (List.replicate (MAX_BODY_SIZE + 1) 0)).1
    (by rw [List.length_replicate]; omega)
  exact ⟨h.1, h.2.2⟩

/-- An element that fails the predicate survives dropWhile. -/
theorem mem_dropWhile_of_not {p : Char → Bool} {c : Char} :
    ∀ {l : List Char}, c ∈ l → p c = false → c ∈ l.dropWhile p := by
  intro l
  induction l with
  | nil => intro h _; simp at h
  | cons d ds ih =>
    intro hmem hpc
    rw [List.dropWhile_cons]
    by_cases hd : p d
    · rw [if_pos hd]
      rcases List.mem_cons.mp hmem with rfl | hmem2
      · rw [hd] at hpc; cases hpc
      · exact ih hmem2 hpc
    · rw [if_neg hd]
      exact hmem

/-- The head surviving dropWhile fails the predicate. -/
theorem dropWhile_head_false {p : Char → Bool} :
    ∀ {l : List Char} {c : Char} {rest : List Char},
      l.dropWhile p = c :: rest → p c = false := by
  intro l
  induction l with
  | nil => intro c rest h; simp at h
  | cons d ds ih =>
    intro c rest h
    rw [List.dropWhile_cons] at h
    by_cases hd : p d
    · rw [if_pos hd] at h
      exact ih h
    · rw [if_neg hd] at h
      cases h
      simpa using hd

/-- A non-whitespace character of the input survives the Python
strip. -/
theorem mem_pyStrip {c : Char} {l : List Char} (hmem : c ∈ l) (hc : pyIsSpace c = false) :
    c ∈ pyStripChars l := by
  unfold pyStripChars
  rw [List.mem_reverse]
  refine mem_dropWhile_of_not ?_ hc
  rw [List.mem_reverse]
  exact mem_dropWhile_of_not hmem hc

/-- Case analysis of the Python whitespace split with maxsplit one:
either the input is all whitespace and the split is empty, or the
input decomposes into leading whitespace, a nonempty token, a
whitespace run and a remainder, and the split is the token alone or
the token with the remainder. -/
theorem pySplitWsOnce_cases (l : List Char) :
    (l.dropWhile pyIsSpace = [] ∧ pySplitWsOnce l = []) ∨
      (∃ tok run rest,
        tok ≠ [] ∧ (∀ c ∈ tok, pyIsSpace c = false) ∧ (∀ c ∈ run, pyIsSpace c = true) ∧
          (∀ c ∈ l.takeWhile pyIsSpace, pyIsSpace c = true) ∧
          l = l.takeWhile pyIsSpace ++ tok ++ run ++ rest ∧
          ((rest = [] ∧ pySplitWsOnce l = [tok]) ∨
            (rest ≠ [] ∧ pySplitWsOnce l = [tok, rest]))) := by
  cases hds : l.dropWhile pyIsSpace with
  | nil =>
    left
    refine ⟨rfl, ?_⟩
    unfold pySplitWsOnce
    rw [hds]
    rfl
  | cons d ds =>
    right
    have hd : pyIsSpace d = false := dropWhile_head_false hds
    refine ⟨(d :: ds).takeWhile (fun c => !pyIsSpace c),
      ((d :: ds).dropWhile (fun c => !pyIsSpace c)).takeWhile pyIsSpace,
      ((d :: ds).dropWhile (fun c => !pyIsSpace c)).dropWhile pyIsSpace,
      ?_, ?_, ?_, ?_, ?_, ?_⟩
    · rw [List.takeWhile_cons]
      simp [hd]
    · intro c hc
      have := List.mem_takeWhile_imp hc
      simpa using this
    · intro c hc
      exact List.mem_takeWhile_imp hc
    · intro c hc
      exact List.mem_takeWhile_imp hc
    · have e0 : l = l.takeWhile pyIsSpace ++ (d :: ds) := by
        conv_lhs => rw [← List.takeWhile_append_dropWhile (p := pyIsSpace) (l := l)]
        rw [hds]
      have e1 : d :: ds =
          (d :: ds).takeWhile (fun c => !pyIsSpace c) ++
            (((d :: ds).dropWhile (fun c => !pyIsSpace c)).takeWhile pyIsSpace ++
              ((d :: ds).dropWhile (fun c => !pyIsSpace c)).dropWhile pyIsSpace) := by
        rw [List.takeWhile_append_dropWhile, List.takeWhile_append_dropWhile]
      calc l = l.takeWhile pyIsSpace ++ (d :: ds) := e0
        _ = _ := by rw [e1]; simp [List.append_assoc]
    · have hsplit : pySplitWsOnce l =
          if (((d :: ds).dropWhile (fun c => !pyIsSpace c)).dropWhile pyIsSpace).isEmpty then
            [(d :: ds).takeWhile (fun c => !pyIsSpace c)]
          else
            [(d :: ds).takeWhile (fun c => !pyIsSpace c),
              ((d :: ds).dropWhile (fun c => !pyIsSpace c)).dropWhile pyIsSpace] := by
        unfold pySplitWsOnce
        rw [hds]
        rw [if_neg (by simp)]
      cases hrest : ((d :: ds).dropWhile (fun c => !pyIsSpace c)).dropWhile pyIsSpace with
      | nil =>
        left
        refine ⟨rfl, ?_⟩
        rw [hsplit, hrest]
        rfl
      | cons r rs =>
        right
        refine ⟨by simp, ?_⟩
        rw [hsplit, hrest]
        rw [if_neg (by simp)]

/-- C10: the current response-header parser returns the first
whitespace-delimited token as status and the remainder as meta for
every header containing a non-whitespace character (agreeing with the
older parser), but on an empty or all-whitespace header the empty
split flows into two-name tuple unpacking and raises, where the older
parser returned a pair of empty strings. -/
theorem c10_header_parse_total_only_on_nonempty (raw : String) :
    ((∀ c ∈ raw.data, pyIsSpace c = true) →
      parse_response_header raw =
          .error (.valueError "not enough values to unpack (expected 2, got 0)") ∧
        parse_header_old raw = ("", "")) ∧
    ((∃ c ∈ raw.data, pyIsSpace c = false) →
      ∃ st meta lead run,
        parse_response_header raw = .ok (st, meta) ∧
          parse_header_old raw = (st, meta) ∧
          st ≠ "" ∧ (∀ c ∈ st.data, pyIsSpace c = false) ∧
          (∀ c ∈ lead, pyIsSpace c = true) ∧ (∀ c ∈ run, pyIsSpace c = true) ∧
          pyStripChars raw.data = lead ++ st.data ++ run ++ meta.data) := by
  constructor
  · intro h
    have h1 : raw.data.dropWhile pyIsSpace = [] := by
      rw [List.dropWhile_eq_nil_iff]
      intro x hx
      exact h x hx
    have hstrip : pyStripChars raw.data = [] := by
      unfold pyStripChars
      rw [h1]
      rfl
    constructor
    · unfold parse_response_header
      rw [hstrip]
      rfl
    · unfold parse_header_old
      rw [hstrip]
      rfl
  · rintro ⟨c0, hc0mem, hc0⟩
    have hmemL : c0 ∈ pyStripChars raw.data := mem_pyStrip hc0mem hc0
    rcases pySplitWsOnce_cases (pyStripChars raw.data) with ⟨hnil, _⟩ | hcase
    · exfalso
      have := mem_dropWhile_of_not hmemL hc0
      rw [hnil] at this
      simp at this
    · obtain ⟨tok, run, rest, htok, htokns, hrunws, hleadws, hdecomp, hsplit⟩ := hcase
      rcases hsplit with ⟨hrestnil, hsp⟩ | ⟨hrestne, hsp⟩
      · refine ⟨String.mk tok, "", (pyStripChars raw.data).takeWhile pyIsSpace, run,
          ?_, ?_, ?_, ?_, hleadws, hrunws, ?_⟩
        · unfold parse_response_header
          rw [hsp]
        · unfold parse_header_old
          rw [hsp]
        · intro e
          exact htok (congrArg String.data e)
        · exact htokns
        · rw [hrestnil] at hdecomp
          simpa using hdecomp
      · refine ⟨String.mk tok, String.mk rest, (pyStripChars raw.data).takeWhile pyIsSpace,
          run, ?_, ?_, ?_, ?_, hleadws, hrunws, ?_⟩
        · unfold parse_response_header
          rw [hsp]
        · unfold parse_header_old
          rw [hsp]
        · intro e
          exact htok (congrArg String.data e)
        · exact htokns
        · exact hdecomp

/-- C10 witness: the contrast at concrete headers: a normal gemini
status line parses into status and meta, and the empty header raises
in the new parser while the old parser returns empty strings. -/
theorem c10_header_parse_witness :
    parse_response_header "20 text/gemini\r\n" = .ok ("20", "text/gemini") ∧
      parse_response_header "\r\n" =
        .error (.valueError "not enough values to unpack (expected 2, got 0)") ∧
      parse_header_old "\r\n" = ("", "") := by
  have h1 := (c10_header_parse_total_only_on_nonempty "\r\n").1 (by decide)
  refine ⟨?_, h1.1, h1.2⟩
  have h2 := (c10_header_parse_total_only_on_nonempty "20 text/gemini\r\n").2
    ⟨'2', by decide, by decide⟩
  rfl

/-- C5: with no declared charset, smart_decode first attempts a
strict UTF-8 decode and on success returns the text with the default
charset name UTF-8; on a decode failure it runs charset detection and
uses the detected charset only when the confidence exceeds one half,
otherwise it decodes with the default charset under replacement; a
truthy declared charset is used directly.  In every case the charset
actually used is returned with the text. -/
theorem c5_smart_decode_fallback (env : PyCodecs) (data : List UInt8) :
    (∀ t, utf8DecodeStrict data = some t → smart_decode env data none = (t, "UTF-8")) ∧
      (utf8DecodeStrict data = none →
        ((1 : ℚ) / 2 < (env.chardet data).confidence →
          smart_decode env data none =
            (env.decodeReplace (env.chardet data).encoding data, (env.chardet data).encoding)) ∧
        (¬ (1 : ℚ) / 2 < (env.chardet data).confidence →
          smart_decode env data none = (env.decodeReplace "UTF-8" data, "UTF-8"))) ∧
      ∀ cs : String, cs ≠ "" → smart_decode env data (some cs) = (env.decodeReplace cs data, cs) := by
  refine ⟨?_, ?_, ?_⟩
  · intro t ht
    simp [smart_decode, smartDecodeDefaultPath, ht]
  · intro hn
    constructor
    · intro hc
      simp only [smart_decode, smartDecodeDefaultPath, hn]
      rw [if_pos hc]
    · intro hc
      simp only [smart_decode, smartDecodeDefaultPath, hn]
      rw [if_neg hc]
  · intro cs hcs
    simp [smart_decode, hcs]

/-- C5 witness: valid UTF-8 bytes decode to their text with charset
UTF-8, and a lone Latin-1 byte fails the strict decode, so the witness
detector (confidence three quarters) decides the charset. -/
theorem c5_smart_decode_witness :
    smart_decode c5WitnessEnv [104, 195, 169] none = ("hé", "UTF-8") ∧
      smart_decode c5WitnessEnv [233] none = ("", "ISO-8859-1") := by
  have h1 := (c5_smart_decode_fallback c5WitnessEnv [104, 195, 169]).1 "hé" rfl
  have h2 := ((c5_smart_decode_fallback c5WitnessEnv [233]).2.1 rfl).1
    (by norm_num [c5WitnessEnv])
  exact ⟨h1, h2⟩

/-- C6: the access policy rejects during request construction, before
any value exists that a connection could be attempted on: the blocked
host vger.cloud on the default port 1965 raises the host-blocked
error, mozz.us on port 22 raises the port-not-allowed error, the host
match is case-insensitive and tolerates a trailing dot, and every
proper subdomain of a blocked host (any nonempty newline-free label
prefix) matches the blocklist pattern. -/
theorem c6_access_policy_rejects_before_connecting :
    (parseUrl "gemini://vger.cloud").map mkRequest = some (.error (.policy .hostBlocked)) ∧
      (parseUrl "gemini://mozz.us:22").map mkRequest =
        some (.error (.policy .portNotAllowed)) ∧
      clean "VGER.CLOUD." 1965 = .error .hostBlocked ∧
      ∀ sub : String, sub ≠ "" → (∀ c ∈ sub.data, c ≠ '\n') →
        ∀ hb ∈ BLOCKED_HOSTS, matchBlocked hb.data (sub.data ++ '.' :: hb.data) = true := by
  refine ⟨rfl, rfl, rfl, ?_⟩
  intro sub hne hnl hb hmem
  have hne' : sub.data ≠ [] := fun e => hne (String.ext e)
  have hpos : 0 < sub.data.length := List.length_pos.mpr hne'
  unfold matchBlocked
  rw [Bool.or_eq_true]
  right
  rw [List.any_eq_true]
  refine ⟨sub.data.length, ?_, ?_⟩
  · rw [List.mem_range, List.length_append]
    simp
  · rw [Bool.and_eq_true, Bool.and_eq_true]
    refine ⟨⟨?_, ?_⟩, ?_⟩
    · rw [decide_eq_true_eq]
      omega
    · rw [List.take_left, List.all_eq_true]
      intro c hc
      simp [reAnyChar, hnl c hc]
    · rw [List.drop_left]
      simp only [BLOCKED_HOSTS, List.mem_cons] at hmem
      rcases hmem with rfl | rfl | rfl | h
      · decide
      · decide
      · decide
      · simp at h

/-- C6 witness: the subdomain conjunct of the access-policy theorem at
the concrete label www and the blocked host vger.cloud. -/
theorem c6_access_policy_witness :
    matchBlocked "vger.cloud".data ("www".data ++ '.' :: "vger.cloud".data) = true := by
  exact c6_access_policy_rejects_before_connecting.2.2.2 "www" (by decide) (by decide)
    "vger.cloud" (by simp [BLOCKED_HOSTS])

/-- Percent-decoding distributes over an append whose right part does
not start with a hexadecimal digit: no percent escape can straddle the
boundary, because an escape needs two hexadecimal digits after the
percent sign. -/
theorem pyUnquote_append (t : List Char)
    (ht : ∀ c, t.head? = some c → pyIsHexChar c = false) :
    ∀ s, pyUnquoteChars (s ++ t) = pyUnquoteChars s ++ pyUnquoteChars t := by
  intro s
  generalize hn : s.length = n
  induction n using Nat.strong_induction_on generalizing s with
  | _ n ih =>
    rcases s with _ | ⟨c, s1⟩
    · simp [pyUnquoteChars.eq_1]
    · simp only [List.length_cons] at hn
      by_cases hc : c = '%'
      · subst hc
        rcases s1 with _ | ⟨a, s2⟩
        · -- s = ['%']
          rcases t with _ | ⟨c0, t2⟩
          · simp [pyUnquoteChars.eq_1]
          · have hc0 : pyIsHexChar c0 = false := ht c0 rfl
            rcases t2 with _ | ⟨c1, t3⟩
            · rw [show (['%'] : List Char) ++ [c0] = '%' :: [c0] from rfl]
              rw [pyUnquoteChars.eq_3 '%' [c0] (by intro a' b' r2 _ h2; simp at h2)]
              rw [pyUnquoteChars.eq_3 '%' [] (by intro a' b' r2 _ h2; simp at h2)]
              simp [pyUnquoteChars.eq_1]
            · rw [show (['%'] : List Char) ++ (c0 :: c1 :: t3) = '%' :: c0 :: c1 :: t3 from rfl]
              rw [pyUnquoteChars.eq_2]
              rw [if_neg (by simp [hc0])]
              rw [pyUnquoteChars.eq_3 '%' [] (by intro a' b' r2 _ h2; simp at h2)]
              simp [pyUnquoteChars.eq_1]
        · rcases s2 with _ | ⟨b, s3⟩
          · -- s = ['%', a]
            rcases t with _ | ⟨c0, t2⟩
            · simp [pyUnquoteChars.eq_1]
            · have hc0 : pyIsHexChar c0 = false := ht c0 rfl
              have hua : pyUnquoteChars ['%', a] =
                  charUtf8 '%' ++ pyUnquoteChars [a] := by
                exact pyUnquoteChars.eq_3 '%' [a] (by intro a' b' r2 _ h2; simp at h2)
              rcases t2 with _ | ⟨c1, t3⟩
              · rw [show (['%', a] : List Char) ++ [c0] = '%' :: a :: c0 :: [] from rfl]
                rw [pyUnquoteChars.eq_2]
                rw [if_neg (by simp [hc0])]
                rw [hua]
                have h2 : pyUnquoteChars (a :: [c0]) =
                    charUtf8 a ++ pyUnquoteChars [c0] := by
                  exact pyUnquoteChars.eq_3 a [c0] (by intro a' b' r2 _ h2; simp at h2)
                have h3 : pyUnquoteChars [a] = charUtf8 a ++ pyUnquoteChars [] := by
                  exact pyUnquoteChars.eq_3 a [] (by intro a' b' r2 _ h2; simp at h2)
                rw [h2, h3]
                simp [pyUnquoteChars.eq_1]
              · rw [show (['%', a] : List Char) ++ (c0 :: c1 :: t3) =
                    '%' :: a :: c0 :: c1 :: t3 from rfl]
                rw [pyUnquoteChars.eq_2]
                rw [if_neg (by simp [hc0])]
                rw [hua]
                have h2 : (a :: c0 :: c1 :: t3 : List Char) = [a] ++ (c0 :: c1 :: t3) := rfl
                rw [h2, ih ([a].length) (by omega) [a] rfl]
                simp [pyUnquoteChars.eq_1]
          · -- s = '%' :: a :: b :: s3
            rw [show ('%' :: a :: b :: s3 : List Char) ++ t = '%' :: a :: b :: (s3 ++ t) from rfl]
            rw [pyUnquoteChars.eq_2, pyUnquoteChars.eq_2]
            by_cases hab : pyIsHexChar a = true ∧ pyIsHexChar b = true
            · rw [if_pos hab, if_pos hab]
              rw [ih s3.length (by simp at hn; omega) s3 rfl]
              simp [pyUnquoteChars.eq_1]
            · rw [if_neg hab, if_neg hab]
              rw [show (a :: b :: (s3 ++ t) : List Char) = (a :: b :: s3) ++ t from rfl]
              rw [ih ((a :: b :: s3).length) (by simp at hn ⊢; omega) (a :: b :: s3) rfl]
              simp [pyUnquoteChars.eq_1]
      · rw [show (c :: s1 : List Char) ++ t = c :: (s1 ++ t) from rfl]
        rw [pyUnquoteChars.eq_3 c (s1 ++ t) (by intro a' b' r2 he _; exact hc he)]
        rw [pyUnquoteChars.eq_3 c s1 (by intro a' b' r2 he _; exact hc he)]
        rw [ih s1.length (by omega) s1 rfl]
        simp [pyUnquoteChars.eq_1]

/-- Decoding a percent-encoded tab separator yields the tab byte. -/
theorem unq_tab_cons (rest : List Char) :
    pyUnquoteChars ('%' :: '0' :: '9' :: rest) = 9 :: pyUnquoteChars rest := by
  rw [pyUnquoteChars.eq_2, if_pos (by decide)]
  congr 1

/-- Percent-decoding a field joined to a percent-encoded tab and a
remainder decodes the field, a tab byte, and the remainder
independently. -/
theorem unq_field_tab (s rest : List Char) :
    pyUnquoteChars (s ++ '%' :: '0' :: '9' :: rest) =
      pyUnquoteChars s ++ 9 :: pyUnquoteChars rest := by
  rw [pyUnquote_append ('%' :: '0' :: '9' :: rest)
    (by intro c h; rw [List.head?_cons] at h; injection h with h2; subst h2; decide) s]
  rw [unq_tab_cons]

/-- Percent-decoding a field followed by CRLF decodes the field and
appends the raw CR and LF bytes. -/
theorem unq_field_crlf (s : List Char) :
    pyUnquoteChars (s ++ ['\r', '\n']) = pyUnquoteChars s ++ [13, 10] := by
  rw [pyUnquote_append ['\r', '\n']
    (by intro c h; rw [List.head?_cons] at h; injection h with h2; subst h2; decide) s]
  congr 1

/-- C7: the wire bytes of a gopher request percent-decode the stored
selector, search and plus fields back to raw bytes around raw tab
bytes; and when the plus string is exactly the query marker, the
transmitted plus field is the info-request marker (byte 33, the
exclamation mark) instead of the question mark. -/
theorem c7_gopher_request_bytes (u : URLReference) :
    (u.gopher_plus_string = "?" →
      get_gopher_request u =
        pyUnquoteChars u.gopher_selector.data ++
          9 :: (pyUnquoteChars u.gopher_search.data ++ [9, 33, 13, 10])) ∧
      (u.gopher_plus_string ≠ "?" → u.gopher_plus_string ≠ "" →
        get_gopher_request u =
          pyUnquoteChars u.gopher_selector.data ++
            9 :: (pyUnquoteChars u.gopher_search.data ++
              9 :: (pyUnquoteChars u.gopher_plus_string.data ++ [13, 10]))) ∧
      (u.gopher_plus_string = "" → u.gopher_search ≠ "" →
        get_gopher_request u =
          pyUnquoteChars u.gopher_selector.data ++
            9 :: (pyUnquoteChars u.gopher_search.data ++ [13, 10])) ∧
      (u.gopher_plus_string = "" → u.gopher_search = "" →
        get_gopher_request u = pyUnquoteChars u.gopher_selector.data ++ [13, 10]) := by
  refine ⟨?_, ?_, ?_, ?_⟩
  · intro hq
    unfold get_gopher_request
    dsimp only
    rw [if_pos hq]
    have e : u.gopher_selector.data ++ ['%', '0', '9'] ++ u.gopher_search.data ++
        ['%', '0', '9'] ++ ['!'] ++ ['\r', '\n'] =
        u.gopher_selector.data ++
          ('%' :: '0' :: '9' :: (u.gopher_search.data ++
            ('%' :: '0' :: '9' :: ['!', '\r', '\n']))) := by
      simp [List.append_assoc]
    rw [e, unq_field_tab, unq_field_tab]
    congr 2
  · intro hq hne
    unfold get_gopher_request
    dsimp only
    rw [if_neg hq, if_pos hne]
    have e : u.gopher_selector.data ++ ['%', '0', '9'] ++ u.gopher_search.data ++
        ['%', '0', '9'] ++ u.gopher_plus_string.data ++ ['\r', '\n'] =
        u.gopher_selector.data ++
          ('%' :: '0' :: '9' :: (u.gopher_search.data ++
            ('%' :: '0' :: '9' :: (u.gopher_plus_string.data ++ ['\r', '\n'])))) := by
      simp [List.append_assoc]
    rw [e, unq_field_tab, unq_field_tab, unq_field_crlf]
  · intro hq hne
    unfold get_gopher_request
    dsimp only
    rw [if_neg (by rw [hq]; decide), if_neg (by rw [hq]; decide), if_pos hne]
    have e : u.gopher_selector.data ++ ['%', '0', '9'] ++ u.gopher_search.data ++
        ['\r', '\n'] =
        u.gopher_selector.data ++
          ('%' :: '0' :: '9' :: (u.gopher_search.data ++ ['\r', '\n'])) := by
      simp [List.append_assoc]
    rw [e, unq_field_tab, unq_field_crlf]
  · intro hq hs
    unfold get_gopher_request
    dsimp only
    rw [if_neg (by rw [hq]; decide), if_neg (by rw [hq]; decide), if_neg (by rw [hs]; decide)]
    exact unq_field_crlf _

/-- C7 witness: the query-marker rewrite at the concrete address
gopher://mozz.us/7hello%20x%09s%09ব: the transmitted bytes end in tab,
exclamation mark, CR, LF. -/
theorem c7_gopher_request_bytes_witness :
    get_gopher_request
        { scheme := "gopher", port := some 70, hostname := some "mozz.us", path := "hello x",
          params := "", query := "", fragment := "", finger_request := "",
          gopher_item_type := "7", gopher_selector := "hello%20x", gopher_search := "s",
          gopher_plus_string := "?" } =
      pyUnquoteChars "hello%20x".data ++ 9 :: (pyUnquoteChars "s".data ++ [9, 33, 13, 10]) := by
  exact (c7_gopher_request_bytes _).1 rfl

/-- C8 counterexample: the serialize/parse round trip loses a gopher
selector consisting solely of a slash.  gopher://mozz.us/1/ parses
with selector "/", serializes back to gopher://mozz.us, which reparses
with the empty selector. -/
theorem c8_selector_slash_counterexample :
    (parseUrl "gopher://mozz.us/1/").map URLReference.gopher_selector = some "/" ∧
      (parseUrl "gopher://mozz.us/1/").map get_url = some "gopher://mozz.us" ∧
      (parseUrl "gopher://mozz.us").map URLReference.gopher_selector = some "" := by
  exact ⟨rfl, rfl, rfl⟩

/-- The delimiter and lowering facts for a character whose code point
lies in the lowercase-letter or digit range. -/
theorem hostnameChar_props_range (c : Char)
    (hv : (97 ≤ c.toNat ∧ c.toNat ≤ 122) ∨ (48 ≤ c.toNat ∧ c.toNat ≤ 57)) :
    c ≠ '@' ∧ c ≠ ':' ∧ c ≠ '[' ∧ c ≠ ']' ∧ c ≠ '/' ∧ netlocChar c = true ∧
      cleanChar c = true ∧ c.toLower = c := by
  have hneOf : ∀ ch : Char, c.toNat ≠ ch.toNat → c ≠ ch := fun ch hn e => hn (by rw [e])
  have h1 : c ≠ '@' := hneOf _ (by rw [show ('@').toNat = 64 from rfl]; omega)
  have h2 : c ≠ ':' := hneOf _ (by rw [show (':').toNat = 58 from rfl]; omega)
  have h3 : c ≠ '[' := hneOf _ (by rw [show ('[').toNat = 91 from rfl]; omega)
  have h4 : c ≠ ']' := hneOf _ (by rw [show (']').toNat = 93 from rfl]; omega)
  have h5 : c ≠ '/' := hneOf _ (by rw [show ('/').toNat = 47 from rfl]; omega)
  have h6 : c ≠ '?' := hneOf _ (by rw [show ('?').toNat = 63 from rfl]; omega)
  have h7 : c ≠ '#' := hneOf _ (by rw [show ('#').toNat = 35 from rfl]; omega)
  have h8 : c ≠ '\t' := hneOf _ (by rw [show ('\t').toNat = 9 from rfl]; omega)
  have h9 : c ≠ '\r' := hneOf _ (by rw [show ('\r').toNat = 13 from rfl]; omega)
  have h10 : c ≠ '\n' := hneOf _ (by rw [show ('\n').toNat = 10 from rfl]; omega)
  refine ⟨h1, h2, h3, h4, h5, ?_, ?_, ?_⟩
  · simp [netlocChar, h5, h6, h7]
  · simp [cleanChar, h8, h9, h10]
  · unfold Char.toLower
    rw [if_neg (by omega)]

/-- A well-formed hostname character is none of the URL delimiters, is
kept by the control-character filter, and is fixed by ASCII
lowering. -/
theorem hostnameChar_props {c : Char} (h : hostnameChar c = true) :
    c ≠ '@' ∧ c ≠ ':' ∧ c ≠ '[' ∧ c ≠ ']' ∧ c ≠ '/' ∧ netlocChar c = true ∧
      cleanChar c = true ∧ c.toLower = c := by
  simp only [hostnameChar, Bool.or_eq_true, Bool.and_eq_true, decide_eq_true_eq] at h
  rcases h with ((hv | hv) | he) | he
  · exact hostnameChar_props_range c (Or.inl hv)
  · exact hostnameChar_props_range c (Or.inr hv)
  · subst he; decide
  · subst he; decide

/-- Every character of a decimal rendering is the image of a digit
value below ten. -/
theorem natDecimal_mem :
    ∀ (n : Nat) (c : Char), c ∈ natDecimal n → ∃ k, k < 10 ∧ c = Char.ofNat (48 + k) := by
  intro n
  induction n using Nat.strong_induction_on with
  | _ n ih =>
    intro c hc
    rw [natDecimal] at hc
    split at hc
    · next h =>
      simp only [List.mem_singleton] at hc
      exact ⟨n, h, hc⟩
    · next h =>
      rw [List.mem_append] at hc
      rcases hc with hc | hc
      · exact ih (n / 10) (Nat.div_lt_self (by omega) (by omega)) c hc
      · simp only [List.mem_singleton] at hc
        exact ⟨n % 10, Nat.mod_lt _ (by omega), hc⟩

/-- The character-level facts for decimal digits as they appear in a
rendered port: digits, not delimiters, clean, and fixed by
lowering. -/
theorem natDecimal_char_props {n : Nat} {c : Char} (hc : c ∈ natDecimal n) :
    c.isDigit = true ∧ c ≠ '@' ∧ c ≠ ':' ∧ c ≠ '[' ∧ c ≠ ']' ∧ c ≠ '/' ∧
      netlocChar c = true ∧ cleanChar c = true := by
  obtain ⟨k, hk, rfl⟩ := natDecimal_mem n c hc
  interval_cases k <;> exact ⟨rfl, by decide, by decide, by decide, by decide, by decide,
    by decide, by decide⟩

/-- Folding one more digit onto a decimal accumulation. -/
theorem digitsVal_append (l : List Char) (c : Char) :
    digitsVal (l ++ [c]) = digitsVal l * 10 + (c.toNat - 48) := by
  unfold digitsVal
  rw [List.foldl_append]
  rfl

/-- Parsing the decimal rendering of a natural number recovers it. -/
theorem digitsVal_natDecimal : ∀ n : Nat, digitsVal (natDecimal n) = n := by
  intro n
  induction n using Nat.strong_induction_on with
  | _ n ih =>
    rw [natDecimal]
    split
    · next h =>
      unfold digitsVal
      simp only [List.foldl_cons, List.foldl_nil]
      have : (Char.ofNat (48 + n)).toNat = 48 + n := by
        interval_cases n <;> decide
      omega
    · next h =>
      rw [digitsVal_append, ih (n / 10) (Nat.div_lt_self (by omega) (by omega))]
      have : (Char.ofNat (48 + n % 10)).toNat = 48 + n % 10 := by
        have h10 : n % 10 < 10 := Nat.mod_lt _ (by omega)
        interval_cases h : (n % 10) <;> decide
      omega

/-- Mapping ASCII lowering over characters it fixes is the
identity. -/
theorem map_toLower_eq_self :
    ∀ {l : List Char}, (∀ c ∈ l, c.toLower = c) → l.map Char.toLower = l := by
  intro l
  induction l with
  | nil => intro _; rfl
  | cons c cs ih =>
    intro h
    rw [List.map_cons, h c (List.mem_cons_self c cs), ih fun x hx => h x (List.mem_cons_of_mem _ hx)]

/-- The user-info strip is the identity when the netloc carries no
at-sign. -/
theorem afterLastAt_eq {l : List Char} (h : '@' ∉ l) : afterLastAt l = l := by
  unfold afterLastAt
  have hall : ∀ c ∈ l.reverse, (c != '@') = true := by
    intro c hc
    rw [List.mem_reverse] at hc
    simp only [bne_iff_ne, ne_eq]
    exact fun e => h (e ▸ hc)
  rw [List.takeWhile_eq_self_iff.mpr hall, List.reverse_reverse]

/-- hostPort on a bare well-formed hostname. -/
theorem hostPort_plain (h : String) (hne : h.data ≠ [])
    (hh : ∀ c ∈ h.data, hostnameChar c = true) :
    hostPort h.data = some (some h, none) := by
  have hnoAt : '@' ∉ h.data := fun hm => (hostnameChar_props (hh _ hm)).1 rfl
  have hnoColon : ∀ c ∈ h.data, (c != ':') = true := by
    intro c hc
    simp only [bne_iff_ne, ne_eq]
    exact (hostnameChar_props (hh c hc)).2.1
  unfold hostPort
  rw [afterLastAt_eq hnoAt]
  dsimp only
  rw [List.takeWhile_eq_self_iff.mpr hnoColon]
  rw [List.dropWhile_eq_nil_iff.mpr fun c hc => hnoColon c hc]
  simp only [List.isEmpty_nil, if_pos]
  rw [if_neg (by simp [hne])]
  have hmap : h.data.map Char.toLower = h.data :=
    map_toLower_eq_self fun c hc => (hostnameChar_props (hh c hc)).2.2.2.2.2.2.2
  rw [hmap]

/-- hostPort on a well-formed hostname joined with a rendered port. -/
theorem hostPort_with_port (h : String) (p : Nat) (hne : h.data ≠ [])
    (hh : ∀ c ∈ h.data, hostnameChar c = true) (hp : p ≤ 65535) :
    hostPort (h.data ++ ':' :: natDecimal p) = some (some h, some p) := by
  have hnoAt : '@' ∉ h.data ++ ':' :: natDecimal p := by
    intro hm
    rw [List.mem_append] at hm
    rcases hm with hm | hm
    · exact (hostnameChar_props (hh _ hm)).1 rfl
    · rw [List.mem_cons] at hm
      rcases hm with hm | hm
      · cases hm
      · exact (natDecimal_char_props hm).2.1 rfl
  have hnoColon : ∀ c ∈ h.data, (c != ':') = true := by
    intro c hc
    simp only [bne_iff_ne, ne_eq]
    exact (hostnameChar_props (hh c hc)).2.1
  unfold hostPort
  rw [afterLastAt_eq hnoAt]
  dsimp only
  rw [List.takeWhile_append_of_pos hnoColon]
  rw [List.dropWhile_append_of_pos hnoColon]
  rw [List.takeWhile_cons_of_neg (by simp), List.append_nil]
  rw [List.dropWhile_cons_of_neg (by simp)]
  simp only [List.tail_cons]
  have hdnil : natDecimal p ≠ [] := by
    rw [natDecimal]
    split <;> simp
  rw [if_neg (by simp), if_neg (by simpa using hdnil)]
  rw [if_pos (by
    rw [List.all_eq_true]
    intro c hc
    exact (natDecimal_char_props hc).1)]
  rw [digitsVal_natDecimal]
  rw [if_pos hp]
  rw [if_neg (by simp [hne])]
  have hmap : h.data.map Char.toLower = h.data :=
    map_toLower_eq_self fun c hc => (hostnameChar_props (hh c hc)).2.2.2.2.2.2.2
  rw [hmap]

/-- breakAtChar finds nothing when the separator is absent. -/
theorem breakAtChar_not_mem {sep : Char} :
    ∀ {l : List Char}, sep ∉ l → breakAtChar sep l = (l, none) := by
  intro l
  induction l with
  | nil => intro _; rfl
  | cons c cs ih =>
    intro h
    have hc : c ≠ sep := fun e => h (e ▸ List.mem_cons_self c cs)
    have hcs := ih fun hm => h (List.mem_cons_of_mem _ hm)
    simp only [breakAtChar, if_neg (fun e => hc e), hcs]

/-- breakAtChar splits at the first occurrence of the separator. -/
theorem breakAtChar_first {sep : Char} :
    ∀ {a : List Char}, sep ∉ a → ∀ b, breakAtChar sep (a ++ sep :: b) = (a, some b) := by
  intro a
  induction a with
  | nil =>
    intro _ b
    simp [breakAtChar]
  | cons c cs ih =>
    intro h b
    have hc : c ≠ sep := fun e => h (e ▸ List.mem_cons_self c cs)
    have hcs := ih (fun hm => h (List.mem_cons_of_mem _ hm)) b
    simp only [List.cons_append, breakAtChar, if_neg (fun e => hc e), List.append_eq, hcs]

/-- The scheme scanner consumes a run of scheme characters up to the
first colon, accumulating them. -/
theorem splitSchemeAux_run :
    ∀ (l acc rest : List Char), (∀ c ∈ l, isSchemeChar c = true ∧ c ≠ ':') →
      (acc = [] → l ≠ []) →
      splitSchemeAux acc (l ++ ':' :: rest) = some (acc.reverse ++ l, rest) := by
  intro l
  induction l with
  | nil =>
    intro acc rest _ hne
    have hacc : acc ≠ [] := fun e => (hne e) rfl
    rw [List.nil_append]
    unfold splitSchemeAux
    rw [if_pos rfl, if_neg (by simpa using hacc)]
    simp
  | cons c cs ih =>
    intro acc rest hl hne
    have hc := hl c (List.mem_cons_self c cs)
    rw [List.cons_append]
    unfold splitSchemeAux
    rw [if_neg hc.2, if_pos hc.1]
    rw [ih (c :: acc) rest (fun x hx => hl x (List.mem_cons_of_mem _ hx)) (by simp)]
    simp

/-- Parsing the scheme off a serialized URL whose scheme part is a
well-formed lowercase scheme string. -/
theorem splitScheme_serialized (S : String) (rest : List Char)
    (h2 : ∀ c ∈ S.data, isSchemeChar c = true ∧ c ≠ ':')
    (h4 : S.data.map Char.toLower = S.data)
    (c0 : Char) (cs0 : List Char) (hS : S.data = c0 :: cs0) (halpha : c0.isAlpha = true) :
    splitScheme (S.data ++ ':' :: rest) = (S, rest) := by
  have haux := splitSchemeAux_run (c0 :: cs0) [] rest (by rw [← hS]; exact h2) (by simp)
  rw [List.cons_append] at haux
  rw [hS, List.cons_append]
  unfold splitScheme
  dsimp only
  rw [if_pos halpha, haux]
  dsimp only
  rw [List.reverse_nil, List.nil_append, ← hS, h4]

/-- The netloc scan collects exactly a run of netloc characters when
it is followed by the end of the input or a delimiter. -/
theorem splitNetloc_serialized (N T : List Char)
    (hN : ∀ c ∈ N, netlocChar c = true)
    (hT : T = [] ∨ ∃ c tl, T = c :: tl ∧ netlocChar c = false) :
    splitNetloc ('/' :: '/' :: (N ++ T)) = (N, T) := by
  rw [splitNetloc.eq_1]
  rw [List.takeWhile_append_of_pos hN, List.dropWhile_append_of_pos hN]
  rcases hT with rfl | ⟨c, tl, rfl, hc⟩
  · simp
  · rw [List.takeWhile_cons_of_neg (by simp [hc]), List.dropWhile_cons_of_neg (by simp [hc])]
    simp

/-- One step of the bounded split when the separator occurs. -/
theorem pySplitCharMax_step (sep : Char) (k : Nat) (l a rest : List Char)
    (h : breakAtChar sep l = (a, some rest)) :
    pySplitCharMax sep (k + 1) l = a :: pySplitCharMax sep k rest := by
  have e : pySplitCharMax sep (k + 1) l =
      match breakAtChar sep l with
      | (_, none) => [l]
      | (a, some rest) => a :: pySplitCharMax sep k rest := rfl
  rw [e, h]

/-- One step of the bounded split when the separator is absent. -/
theorem pySplitCharMax_stop (sep : Char) (k : Nat) (l : List Char)
    (h : breakAtChar sep l = (l, none)) :
    pySplitCharMax sep (k + 1) l = [l] := by
  have e : pySplitCharMax sep (k + 1) l =
      match breakAtChar sep l with
      | (_, none) => [l]
      | (a, some rest) => a :: pySplitCharMax sep k rest := rfl
  rw [e, h]

/-- Splitting a serialized URL with an empty post-authority part on
slashes: three sections. -/
theorem sections_root (S N : List Char) (hS : '/' ∉ S) (hN : '/' ∉ N) :
    pySplitCharMax '/' 3 (S ++ ':' :: '/' :: '/' :: N) = [S ++ [':'], [], N] := by
  have hmem : '/' ∉ S ++ [':'] := by
    intro hm
    rcases List.mem_append.mp hm with hm | hm
    · exact hS hm
    · simp at hm
  have b1 := breakAtChar_first hmem ('/' :: N)
  rw [show (S ++ [':']) ++ '/' :: '/' :: N = S ++ ':' :: '/' :: '/' :: N by simp] at b1
  rw [show (3 : Nat) = 2 + 1 from rfl, pySplitCharMax_step _ _ _ _ _ b1]
  have b2 : breakAtChar '/' ('/' :: N : List Char) = ([], some N) := by
    simp [breakAtChar]
  rw [show (2 : Nat) = 1 + 1 from rfl, pySplitCharMax_step _ _ _ _ _ b2]
  rw [show (1 : Nat) = 0 + 1 from rfl, pySplitCharMax_stop _ _ _ (breakAtChar_not_mem hN)]

/-- Splitting a serialized URL whose post-authority part starts with a
slash: four sections, the last being everything after that slash. -/
theorem sections_path (S N T2 : List Char) (hS : '/' ∉ S) (hN : '/' ∉ N) :
    pySplitCharMax '/' 3 (S ++ ':' :: '/' :: '/' :: (N ++ '/' :: T2)) =
      [S ++ [':'], [], N, T2] := by
  have hmem : '/' ∉ S ++ [':'] := by
    intro hm
    rcases List.mem_append.mp hm with hm | hm
    · exact hS hm
    · simp at hm
  have b1 := breakAtChar_first hmem ('/' :: (N ++ '/' :: T2))
  rw [show (S ++ [':']) ++ '/' :: '/' :: (N ++ '/' :: T2) =
      S ++ ':' :: '/' :: '/' :: (N ++ '/' :: T2) by simp] at b1
  rw [show (3 : Nat) = 2 + 1 from rfl, pySplitCharMax_step _ _ _ _ _ b1]
  have b2 : breakAtChar '/' ('/' :: (N ++ '/' :: T2) : List Char) = ([], some (N ++ '/' :: T2)) := by
    simp [breakAtChar]
  rw [show (2 : Nat) = 1 + 1 from rfl, pySplitCharMax_step _ _ _ _ _ b2]
  rw [show (1 : Nat) = 0 + 1 from rfl, pySplitCharMax_step _ _ _ _ _ (breakAtChar_first hN T2)]
  rfl

/-- Appending a percent-encoded tab to a string that contains none
splits exactly at the boundary. -/
theorem splitTab_append (t : List Char) :
    ∀ s, splitTab s = none → splitTab (s ++ '%' :: '0' :: '9' :: t) = some (s, t) := by
  intro s
  generalize hn : s.length = n
  induction n using Nat.strong_induction_on generalizing s with
  | _ n ih =>
    intro hnone
    rcases s with _ | ⟨c, s1⟩
    · rw [List.nil_append, splitTab.eq_1]
    · rcases s1 with _ | ⟨d, s2⟩
      · rw [show ([c] : List Char) ++ '%' :: '0' :: '9' :: t = c :: '%' :: '0' :: '9' :: t
          from rfl]
        rw [splitTab.eq_2 c _ (by intro r _ h2; simp at h2)]
        rw [splitTab.eq_1]
      · rcases s2 with _ | ⟨e, s3⟩
        · have hd : splitTab [d] = none := by
            rw [splitTab.eq_2 d [] (by intro r _ h2; simp at h2), splitTab.eq_3]
          have h2 := ih 1 (by simp at hn; omega) [d] rfl hd
          rw [show ([c, d] : List Char) ++ '%' :: '0' :: '9' :: t =
              c :: ([d] ++ '%' :: '0' :: '9' :: t) from rfl]
          rw [splitTab.eq_2 c _ (by intro r _ h2'; simp at h2')]
          rw [h2]
        · by_cases hpat : c = '%' ∧ d = '0' ∧ e = '9'
          · exfalso
            obtain ⟨rfl, rfl, rfl⟩ := hpat
            rw [splitTab.eq_1] at hnone
            cases hnone
          · have hcond : ∀ r, c = '%' → d :: e :: s3 = '0' :: '9' :: r → False := by
              intro r h1 h2
              injection h2 with h2a h2b
              injection h2b with h2c h2d
              exact hpat ⟨h1, h2a, h2c⟩
            have htail : splitTab (d :: e :: s3) = none := by
              rw [splitTab.eq_2 c _ hcond] at hnone
              cases hsp : splitTab (d :: e :: s3) with
              | none => rfl
              | some v =>
                rw [hsp] at hnone
                rcases v with ⟨a, b⟩
                simp at hnone
            have hih := ih (d :: e :: s3).length (by simp at hn ⊢; omega) (d :: e :: s3) rfl
              htail
            rw [show (c :: d :: e :: s3) ++ '%' :: '0' :: '9' :: t =
                c :: ((d :: e :: s3) ++ '%' :: '0' :: '9' :: t) from rfl]
            rw [splitTab.eq_2 c _ (by
              intro r h1 h2
              simp only [List.cons_append] at h2
              injection h2 with h2a h2b
              injection h2b with h2c h2d
              exact hpat ⟨h1, h2a, h2c⟩)]
            rw [hih]

/-- The control-character filter is the identity on clean
characters. -/
theorem filter_clean {l : List Char} (h : ∀ c ∈ l, cleanChar c = true) :
    l.filter (fun c => !(c = '\t' || c = '\r' || c = '\n')) = l := by
  rw [List.filter_eq_self]
  intro a ha
  have := h a ha
  simpa [cleanChar] using this

/-- The normalized netloc of a well-formed address on its default
port is the bare hostname. -/
theorem netloc_default (u : URLReference) (h : String) (p : Nat)
    (hh : u.hostname = some h) (hp : u.port = some p)
    (hdef : DEFAULT_PORTS u.scheme = some p) :
    netloc u = h := by
  unfold netloc
  rw [hp, hh]
  dsimp only
  rw [if_neg (by simp [hdef])]

/-- The normalized netloc of a well-formed address on a non-default
port renders the hostname, a colon, and the decimal port. -/
theorem netloc_nondefault (u : URLReference) (h : String) (p : Nat)
    (hh : u.hostname = some h) (hp : u.port = some p) (hpos : 0 < p)
    (hdef : DEFAULT_PORTS u.scheme ≠ some p) :
    (netloc u).data = h.data ++ ':' :: natDecimal p := by
  unfold netloc
  rw [hp, hh]
  dsimp only
  rw [if_pos ⟨by omega, hdef⟩]
  rw [String.data_append, String.data_append]
  simp

/-- A nonempty string has a nonempty character list. -/
theorem data_ne_nil {h : String} (hne : h ≠ "") : h.data ≠ [] :=
  fun e => hne (String.ext e)

/-- The slash is not a well-formed netloc character list member. -/
theorem slash_not_mem_netloc {h : String} (hh : ∀ c ∈ h.data, hostnameChar c = true)
    {p : Nat} : ∀ N, (N = h.data ∨ N = h.data ++ ':' :: natDecimal p) → '/' ∉ N := by
  intro N hN hm
  rcases hN with rfl | rfl
  · exact (hostnameChar_props (hh _ hm)).2.2.2.2.1 rfl
  · rcases List.mem_append.mp hm with hm | hm
    · exact (hostnameChar_props (hh _ hm)).2.2.2.2.1 rfl
    · rcases List.mem_cons.mp hm with hm | hm
      · cases hm
      · exact (natDecimal_char_props hm).2.2.2.2.2.1 rfl

/-- Netloc character lists built from a well-formed hostname and an
optional rendered port consist of netloc characters only, are clean,
and contain no brackets. -/
theorem netloc_chars_props {h : String} (hh : ∀ c ∈ h.data, hostnameChar c = true)
    {p : Nat} : ∀ N, (N = h.data ∨ N = h.data ++ ':' :: natDecimal p) →
      ∀ c ∈ N, netlocChar c = true ∧ cleanChar c = true ∧ c ≠ '[' ∧ c ≠ ']' := by
  intro N hN c hm
  rcases hN with rfl | rfl
  · obtain ⟨_, _, h3, h4, _, h6, h7, _⟩ := hostnameChar_props (hh _ hm)
    exact ⟨h6, h7, h3, h4⟩
  · rcases List.mem_append.mp hm with hm | hm
    · obtain ⟨_, _, h3, h4, _, h6, h7, _⟩ := hostnameChar_props (hh _ hm)
      exact ⟨h6, h7, h3, h4⟩
    · rcases List.mem_cons.mp hm with rfl | hm
      · exact ⟨by decide, by decide, by decide, by decide⟩
      · obtain ⟨_, _, _, h4, h5, _, h7, h8⟩ := natDecimal_char_props hm
        exact ⟨h7, h8, h4, h5⟩

/-- The initial strip of control characters and spaces is the identity
on a string that starts with a serialized scheme letter. -/
theorem dropWhile_strip_append (S : String) (c0 : Char) (t : List Char)
    (hS : S.data = c0 :: t) (hc : 32 < c0.toNat) (X : List Char) :
    (S.data ++ X).dropWhile (fun c => c.toNat ≤ 32) = S.data ++ X := by
  rw [hS, List.cons_append]
  exact List.dropWhile_cons_of_neg (by simp; omega)

/-- The tab, CR and LF removal on a serialized URL only touches the
part after the authority. -/
theorem filter_serialized (S : String) (N T : List Char)
    (hS : ∀ c ∈ S.data, cleanChar c = true) (hN : ∀ c ∈ N, cleanChar c = true) :
    (S.data ++ ':' :: '/' :: '/' :: (N ++ T)).filter
        (fun c => !(c = '\t' || c = '\r' || c = '\n')) =
      S.data ++ ':' :: '/' :: '/' ::
        (N ++ T.filter (fun c => !(c = '\t' || c = '\r' || c = '\n'))) := by
  have h1 : S.data ++ ':' :: '/' :: '/' :: (N ++ T) =
      (S.data ++ ':' :: '/' :: '/' :: N) ++ T := by simp
  rw [h1, List.filter_append]
  rw [filter_clean (show ∀ c ∈ S.data ++ ':' :: '/' :: '/' :: N, cleanChar c = true by
    intro c hc
    rcases List.mem_append.mp hc with hc | hc
    · exact hS c hc
    · rcases List.mem_cons.mp hc with rfl | hc
      · decide
      · rcases List.mem_cons.mp hc with rfl | hc
        · decide
        · rcases List.mem_cons.mp hc with rfl | hc
          · decide
          · exact hN c hc)]
  simp [List.append_assoc]

/-- Resolving the explicit port left by hostPort on a serialized
netloc against the scheme default always recovers the resolved
port. -/
theorem pyOrNat_port (S : String) (p : Nat) (hpos : 0 < p) :
    pyOrNat (if DEFAULT_PORTS S = some p then none else some p) (DEFAULT_PORTS S) = some p := by
  by_cases hdef : DEFAULT_PORTS S = some p
  · rw [if_pos hdef]
    exact hdef
  · rw [if_neg hdef]
    unfold pyOrNat
    dsimp only
    rw [if_neg (by omega)]

/-- parseUrl on a serialized URL of a well-formed supported scheme
reduces to the post-authority tail: the strip and filter phases leave
the scheme and authority alone, the scheme and netloc are split back
off exactly, the bracket check passes, and hostPort recovers the
hostname and explicit port. -/
theorem parseUrl_serialized (S : String) (c0 : Char) (cs0 : List Char)
    (hSd : S.data = c0 :: cs0) (halpha : c0.isAlpha = true) (h32 : 32 < c0.toNat)
    (hsch : ∀ c ∈ S.data, isSchemeChar c = true ∧ c ≠ ':')
    (hlow : S.data.map Char.toLower = S.data)
    (hScl : ∀ c ∈ S.data, cleanChar c = true)
    (N : List Char)
    (hNnet : ∀ c ∈ N, netlocChar c = true)
    (hNcl : ∀ c ∈ N, cleanChar c = true)
    (hNbr : ¬ N.any (fun c => c = '[' || c = ']') = true)
    (host : Option String) (portOpt : Option Nat)
    (hHP : hostPort N = some (host, portOpt))
    (T : List Char)
    (hT : T = [] ∨ ∃ c tl, T = c :: tl ∧ netlocChar c = false ∧ cleanChar c = true) :
    parseUrl (String.mk (S.data ++ ':' :: '/' :: '/' :: (N ++ T))) =
      some (parseAfterAuthority S host portOpt
        (S.data ++ ':' :: '/' :: '/' :: (N ++ T))
        (T.filter (fun c => !(c = '\t' || c = '\r' || c = '\n')))) := by
  have hsn : splitNetloc
      ('/' :: '/' :: (N ++ T.filter (fun c => !(c = '\t' || c = '\r' || c = '\n')))) =
      (N, T.filter (fun c => !(c = '\t' || c = '\r' || c = '\n'))) := by
    rcases hT with rfl | ⟨c, tl, rfl, hc, hcl⟩
    · exact splitNetloc_serialized N _ hNnet (Or.inl rfl)
    · rw [List.filter_cons_of_pos (by simpa [cleanChar] using hcl)]
      exact splitNetloc_serialized N _ hNnet (Or.inr ⟨c, _, rfl, hc⟩)
  unfold parseUrl parseAfterAuthority
  dsimp only
  rw [dropWhile_strip_append S c0 cs0 hSd h32]
  rw [filter_serialized S N T hScl hNcl]
  rw [splitScheme_serialized S _ hsch hlow c0 cs0 hSd halpha]
  dsimp only
  rw [hsn]
  dsimp only
  rw [if_neg hNbr]
  rw [hHP]

/-- Round trip for finger addresses: parsing the serialized form of a
well-formed finger address recovers the scheme, hostname, resolved
port and finger request. -/
theorem finger_round_trip (u : URLReference) (hwf : wfFinger u) :
    ∃ v, parseUrl (get_url u) = some v ∧ sameCore u v ∧
      v.finger_request = u.finger_request := by
  obtain ⟨hs, ⟨⟨h, hhost, hhne, hhc⟩, ⟨p, hpv, hppos, hple⟩⟩⟩ := hwf
  have hdne := data_ne_nil hhne
  have h1 : get_url u = "finger" ++ "://" ++ netloc u ++ get_finger_path u := by
    unfold get_url
    rw [if_pos hs, hs]
  have hNdisj : (netloc u).data = h.data ∨ (netloc u).data = h.data ++ ':' :: natDecimal p := by
    by_cases hdef : DEFAULT_PORTS u.scheme = some p
    · left
      rw [netloc_default u h p hhost hpv hdef]
    · right
      exact netloc_nondefault u h p hhost hpv hppos hdef
  have hHP : hostPort (netloc u).data = some (some h,
      if DEFAULT_PORTS "finger" = some p then none else some p) := by
    by_cases hdef : DEFAULT_PORTS "finger" = some p
    · rw [if_pos hdef, netloc_default u h p hhost hpv (by rw [hs]; exact hdef)]
      exact hostPort_plain h hdne hhc
    · rw [if_neg hdef, netloc_nondefault u h p hhost hpv hppos (by rw [hs]; exact hdef)]
      exact hostPort_with_port h p hdne hhc hple
  have hNp := netloc_chars_props hhc (netloc u).data hNdisj
  have hNs : '/' ∉ (netloc u).data := slash_not_mem_netloc hhc (netloc u).data hNdisj
  have hNnet : ∀ c ∈ (netloc u).data, netlocChar c = true := fun c hc => (hNp c hc).1
  have hNcl : ∀ c ∈ (netloc u).data, cleanChar c = true := fun c hc => (hNp c hc).2.1
  have hNbr : ¬ ((netloc u).data.any (fun c => c = '[' || c = ']') = true) := by
    rw [List.any_eq_true]
    rintro ⟨c, hc, hcc⟩
    obtain ⟨-, -, h3, h4⟩ := hNp c hc
    simp only [Bool.or_eq_true, decide_eq_true_eq] at hcc
    rcases hcc with hcc | hcc
    · exact h3 hcc
    · exact h4 hcc
  by_cases hfr : u.finger_request = ""
  · have hpath : get_finger_path u = "" := by
      unfold get_finger_path
      rw [if_neg (by simp [hfr])]
    have hu : get_url u =
        String.mk ("finger".data ++ ':' :: '/' :: '/' ::
          ((netloc u).data ++ ([] : List Char))) := by
      rw [h1, hpath]
      apply String.ext
      have e : ("finger" ++ "://" ++ netloc u ++ "").data =
          (("finger".data ++ [':', '/', '/']) ++ (netloc u).data) ++ ([] : List Char) := rfl
      rw [e]
      simp [List.append_assoc]
    rw [hu, parseUrl_serialized "finger" 'f' ['i', 'n', 'g', 'e', 'r'] (by decide) (by decide)
      (by decide) (by decide) (by decide) (by decide) (netloc u).data hNnet hNcl hNbr
      (some h) _ hHP [] (Or.inl rfl)]
    have hrec : parseAfterAuthority "finger" (some h)
        (if DEFAULT_PORTS "finger" = some p then none else some p)
        ("finger".data ++ ':' :: '/' :: '/' :: ((netloc u).data ++ ([] : List Char)))
        (([] : List Char).filter (fun c => !(c = '\t' || c = '\r' || c = '\n'))) =
        { scheme := "finger", port := some p, hostname := some h, path := "", params := "",
          query := "", fragment := "", finger_request := "", gopher_item_type := "",
          gopher_selector := "", gopher_search := "", gopher_plus_string := "" } := by
      unfold parseAfterAuthority
      dsimp only
      rw [List.filter_nil]
      rw [show breakAtChar '#' ([] : List Char) = (([] : List Char), (none : Option (List Char)))
        from rfl]
      dsimp only
      rw [show breakAtChar '?' ([] : List Char) = (([] : List Char), (none : Option (List Char)))
        from rfl]
      dsimp only
      rw [pyOrNat_port "finger" p hppos]
      rw [show "finger".data ++ ':' :: '/' :: '/' :: ((netloc u).data ++ ([] : List Char)) =
          "finger".data ++ ':' :: '/' :: '/' :: (netloc u).data by simp]
      rw [sections_root "finger".data (netloc u).data (by decide) hNs]
      rfl
    rw [hrec]
    exact ⟨_, rfl, ⟨hs.symm, hhost.symm, hpv.symm⟩, hfr.symm⟩
  · have hpd : get_finger_path u = "/" ++ u.finger_request := by
      unfold get_finger_path
      rw [if_pos hfr]
    have hu : get_url u =
        String.mk ("finger".data ++ ':' :: '/' :: '/' ::
          ((netloc u).data ++ '/' :: u.finger_request.data)) := by
      rw [h1, hpd]
      apply String.ext
      have e : ("finger" ++ "://" ++ netloc u ++ ("/" ++ u.finger_request)).data =
          (("finger".data ++ [':', '/', '/']) ++ (netloc u).data) ++
            '/' :: u.finger_request.data := rfl
      rw [e]
      simp [List.append_assoc]
    rw [hu, parseUrl_serialized "finger" 'f' ['i', 'n', 'g', 'e', 'r'] (by decide) (by decide)
      (by decide) (by decide) (by decide) (by decide) (netloc u).data hNnet hNcl hNbr
      (some h) _ hHP ('/' :: u.finger_request.data) (Or.inr ⟨'/', _, rfl, by decide, by decide⟩)]
    rcases hbk1 : breakAtChar '#'
        (('/' :: u.finger_request.data).filter (fun c => !(c = '\t' || c = '\r' || c = '\n')))
      with ⟨r3, fragOpt⟩
    rcases hbk2 : breakAtChar '?' r3 with ⟨r4, queryOpt⟩
    have hrec : parseAfterAuthority "finger" (some h)
        (if DEFAULT_PORTS "finger" = some p then none else some p)
        ("finger".data ++ ':' :: '/' :: '/' :: ((netloc u).data ++ '/' :: u.finger_request.data))
        (('/' :: u.finger_request.data).filter (fun c => !(c = '\t' || c = '\r' || c = '\n'))) =
        { scheme := "finger", port := some p, hostname := some h,
          path := (if String.mk r4 = "/" then "" else String.mk r4), params := "",
          query := String.mk (queryOpt.getD []), fragment := String.mk (fragOpt.getD []),
          finger_request := u.finger_request, gopher_item_type := "",
          gopher_selector := "", gopher_search := "", gopher_plus_string := "" } := by
      unfold parseAfterAuthority
      dsimp only
      rw [hbk1]
      dsimp only
      rw [hbk2]
      dsimp only
      rw [pyOrNat_port "finger" p hppos]
      rw [sections_path "finger".data (netloc u).data u.finger_request.data (by decide) hNs]
      rfl
    rw [hrec]
    exact ⟨_, rfl, ⟨hs.symm, hhost.symm, hpv.symm⟩, rfl⟩

/-- The post-authority tail for a scheme that is neither finger nor
gopher: the finger and gopher sections are skipped, so the address is
built from the fragment and query splits alone. -/
theorem parseAfterAuthority_generic (S : String) (hf : S ≠ "finger") (hg : S ≠ "gopher")
    (hg2 : S ≠ "gophers") (host : Option String) (portOpt : Option Nat) (raw Tf : List Char)
    (r3 r4 : List Char) (fragOpt queryOpt : Option (List Char))
    (hb1 : breakAtChar '#' Tf = (r3, fragOpt)) (hb2 : breakAtChar '?' r3 = (r4, queryOpt)) :
    parseAfterAuthority S host portOpt raw Tf =
      { scheme := S, port := pyOrNat portOpt (DEFAULT_PORTS S), hostname := host,
        path := (if String.mk r4 = "/" then "" else String.mk r4), params := "",
        query := String.mk (queryOpt.getD []), fragment := String.mk (fragOpt.getD []),
        finger_request := "", gopher_item_type := "", gopher_selector := "",
        gopher_search := "", gopher_plus_string := "" } := by
  unfold parseAfterAuthority
  dsimp only
  rw [hb1]
  dsimp only
  rw [hb2]
  dsimp only
  rw [if_neg (show ¬((S = "finger" && (pySplitCharMax '/' 3 raw).length = 4) = true) by
    intro hcc
    rw [Bool.and_eq_true] at hcc
    exact hf (of_decide_eq_true hcc.1))]
  rw [if_neg (show ¬((S = "gopher" || S = "gophers") = true) by
    intro hcc
    rw [Bool.or_eq_true] at hcc
    rcases hcc with hcc | hcc
    · exact hg (of_decide_eq_true hcc)
    · exact hg2 (of_decide_eq_true hcc))]
  dsimp only
  rfl

/-- Round trip for the generic hierarchical schemes, parametrized over
the scheme string: parsing the serialized form of a well-formed
address recovers the scheme, hostname, resolved port, path, query and
fragment. -/
theorem generic_round_trip_core (S : String) (c0 : Char) (cs0 : List Char)
    (hSd : S.data = c0 :: cs0) (halpha : c0.isAlpha = true) (h32 : 32 < c0.toNat)
    (hsch : ∀ c ∈ S.data, isSchemeChar c = true ∧ c ≠ ':')
    (hlow : S.data.map Char.toLower = S.data)
    (hScl : ∀ c ∈ S.data, cleanChar c = true)
    (hSne : S ≠ "") (hSnf : S ≠ "finger") (hSng : S ≠ "gopher") (hSng2 : S ≠ "gophers")
    (u : URLReference) (hs : u.scheme = S)
    (hwc : wfCommon u)
    (hpath : u.path = "" ∨ u.path.data.head? = some '/')
    (hpne : u.path ≠ "/")
    (hpchars : ∀ c ∈ u.path.data, c ≠ '?' ∧ c ≠ '#' ∧ cleanChar c = true)
    (hparams : u.params = "")
    (hqchars : ∀ c ∈ u.query.data, c ≠ '#' ∧ cleanChar c = true)
    (hfchars : ∀ c ∈ u.fragment.data, cleanChar c = true) :
    ∃ v, parseUrl (get_url u) = some v ∧ sameCore u v ∧
      v.path = u.path ∧ v.query = u.query ∧ v.fragment = u.fragment := by
  obtain ⟨⟨h, hhost, hhne, hhc⟩, ⟨p, hpv, hppos, hple⟩⟩ := hwc
  have hdne := data_ne_nil hhne
  have h1 : get_url u = urlunparseEmbed S (netloc u) u.path "" u.query u.fragment := by
    unfold get_url
    rw [if_neg (show ¬(u.scheme = "finger") by rw [hs]; exact hSnf)]
    rw [if_neg (show ¬(u.scheme = "gopher" ∨ u.scheme = "gophers") by
      rw [hs]
      rintro (e | e)
      · exact hSng e
      · exact hSng2 e)]
    rw [hs, hparams]
    rfl
  have hNdisj : (netloc u).data = h.data ∨ (netloc u).data = h.data ++ ':' :: natDecimal p := by
    by_cases hdef : DEFAULT_PORTS u.scheme = some p
    · left
      rw [netloc_default u h p hhost hpv hdef]
    · right
      exact netloc_nondefault u h p hhost hpv hppos hdef
  have hHP : hostPort (netloc u).data = some (some h,
      if DEFAULT_PORTS S = some p then none else some p) := by
    by_cases hdef : DEFAULT_PORTS S = some p
    · rw [if_pos hdef, netloc_default u h p hhost hpv (by rw [hs]; exact hdef)]
      exact hostPort_plain h hdne hhc
    · rw [if_neg hdef, netloc_nondefault u h p hhost hpv hppos (by rw [hs]; exact hdef)]
      exact hostPort_with_port h p hdne hhc hple
  have hNp := netloc_chars_props hhc (netloc u).data hNdisj
  have hNnet : ∀ c ∈ (netloc u).data, netlocChar c = true := fun c hc => (hNp c hc).1
  have hNcl : ∀ c ∈ (netloc u).data, cleanChar c = true := fun c hc => (hNp c hc).2.1
  have hNbr : ¬ ((netloc u).data.any (fun c => c = '[' || c = ']') = true) := by
    rw [List.any_eq_true]
    rintro ⟨c, hc, hcc⟩
    obtain ⟨-, -, h3, h4⟩ := hNp c hc
    simp only [Bool.or_eq_true, decide_eq_true_eq] at hcc
    rcases hcc with hcc | hcc
    · exact h3 hcc
    · exact h4 hcc
  have hnetne : netloc u ≠ "" := by
    intro e
    have hx : (netloc u).data = [] := by rw [e]
    rcases hNdisj with h2 | h2
    · rw [h2] at hx
      exact hdne hx
    · rw [h2] at hx
      rcases List.append_eq_nil.mp hx with ⟨e1, -⟩
      exact hdne e1
  have hpd : u.path.data = [] ∨ ∃ pt, u.path.data = '/' :: pt := by
    rcases hpath with hp0 | hp1
    · left
      rw [hp0]
    · right
      cases hdp : u.path.data with
      | nil =>
        rw [hdp] at hp1
        cases hp1
      | cons a t =>
        rw [hdp] at hp1
        simp only [List.head?_cons, Option.some.injEq] at hp1
        exact ⟨t, by rw [hp1]⟩
  have hpathif : ¬(u.path.data ≠ [] ∧ u.path.data.take 1 ≠ ['/']) := by
    rintro ⟨hne2, htk⟩
    rcases hpd with hp0 | ⟨pt, hpt⟩
    · exact hne2 hp0
    · rw [hpt] at htk
      exact htk rfl
  have hpne' : ¬(String.mk u.path.data = "/") := hpne
  have hnohashP : '#' ∉ u.path.data := fun hm => (hpchars _ hm).2.1 rfl
  have hnoqP : '?' ∉ u.path.data := fun hm => (hpchars _ hm).1 rfl
  have hnohashQ : '#' ∉ u.query.data := fun hm => (hqchars _ hm).1 rfl
  have hTx : ∀ X : List Char, (∃ c tl, X = c :: tl ∧ netlocChar c = false ∧ cleanChar c = true) →
      (u.path.data ++ X = [] ∨
        ∃ c tl, u.path.data ++ X = c :: tl ∧ netlocChar c = false ∧ cleanChar c = true) := by
    rintro X ⟨c, tl, hX, hc1, hc2⟩
    rcases hpd with hp0 | ⟨pt, hpt⟩
    · rw [hp0, List.nil_append, hX]
      exact Or.inr ⟨c, tl, rfl, hc1, hc2⟩
    · rw [hpt]
      exact Or.inr ⟨'/', pt ++ X, by simp, by decide, by decide⟩
  by_cases hq : u.query = ""
  · by_cases hf : u.fragment = ""
    · -- no query, no fragment
      have hu : get_url u =
          String.mk (S.data ++ ':' :: '/' :: '/' :: ((netloc u).data ++ u.path.data)) := by
        rw [h1, hq, hf]
        unfold urlunparseEmbed
        dsimp only
        rw [if_neg (show ¬(("" : String) ≠ "") by simp)]
        rw [if_neg (show ¬(("" : String) ≠ "") by simp)]
        rw [if_neg (show ¬(("" : String) ≠ "") by simp)]
        rw [if_pos (show S ≠ "" from hSne)]
        rw [if_pos (show (netloc u ≠ "" ∨
          (u.path.data ≠ [] ∧ u.path.data.take 2 = ['/', '/'])) from Or.inl hnetne)]
        rw [if_neg hpathif]
        exact congrArg String.mk (by simp [List.append_assoc])
      have hT : u.path.data = [] ∨
          ∃ c tl, u.path.data = c :: tl ∧ netlocChar c = false ∧ cleanChar c = true := by
        rcases hpd with hp0 | ⟨pt, hpt⟩
        · exact Or.inl hp0
        · exact Or.inr ⟨'/', pt, hpt, by decide, by decide⟩
      have hTcl : ∀ c ∈ u.path.data, cleanChar c = true := fun c hc => (hpchars c hc).2.2
      rw [hu, parseUrl_serialized S c0 cs0 hSd halpha h32 hsch hlow hScl (netloc u).data
        hNnet hNcl hNbr (some h) _ hHP u.path.data hT]
      rw [filter_clean hTcl]
      rw [parseAfterAuthority_generic S hSnf hSng hSng2 (some h) _ _ u.path.data
        u.path.data u.path.data none none (breakAtChar_not_mem hnohashP)
        (breakAtChar_not_mem hnoqP)]
      rw [pyOrNat_port S p hppos]
      rw [if_neg hpne']
      exact ⟨_, rfl, ⟨hs.symm, hhost.symm, hpv.symm⟩, rfl, hq.symm, hf.symm⟩
    · -- fragment only
      have hu : get_url u =
          String.mk (S.data ++ ':' :: '/' :: '/' ::
            ((netloc u).data ++ (u.path.data ++ '#' :: u.fragment.data))) := by
        rw [h1, hq]
        unfold urlunparseEmbed
        dsimp only
        rw [if_pos (show u.fragment ≠ "" from hf)]
        rw [if_neg (show ¬(("" : String) ≠ "") by simp)]
        rw [if_neg (show ¬(("" : String) ≠ "") by simp)]
        rw [if_pos (show S ≠ "" from hSne)]
        rw [if_pos (show (netloc u ≠ "" ∨
          (u.path.data ≠ [] ∧ u.path.data.take 2 = ['/', '/'])) from Or.inl hnetne)]
        rw [if_neg hpathif]
        exact congrArg String.mk (by simp [List.append_assoc])
      have hT := hTx ('#' :: u.fragment.data) ⟨'#', _, rfl, by decide, by decide⟩
      have hTcl : ∀ c ∈ u.path.data ++ '#' :: u.fragment.data, cleanChar c = true := by
        intro c hc
        rcases List.mem_append.mp hc with hc | hc
        · exact (hpchars c hc).2.2
        · rcases List.mem_cons.mp hc with rfl | hc
          · decide
          · exact hfchars c hc
      rw [hu, parseUrl_serialized S c0 cs0 hSd halpha h32 hsch hlow hScl (netloc u).data
        hNnet hNcl hNbr (some h) _ hHP (u.path.data ++ '#' :: u.fragment.data) hT]
      rw [filter_clean hTcl]
      rw [parseAfterAuthority_generic S hSnf hSng hSng2 (some h) _ _
        (u.path.data ++ '#' :: u.fragment.data) u.path.data u.path.data
        (some u.fragment.data) none (breakAtChar_first hnohashP u.fragment.data)
        (breakAtChar_not_mem hnoqP)]
      rw [pyOrNat_port S p hppos]
      rw [if_neg hpne']
      exact ⟨_, rfl, ⟨hs.symm, hhost.symm, hpv.symm⟩, rfl, hq.symm, rfl⟩
  · by_cases hf : u.fragment = ""
    · -- query only
      have hu : get_url u =
          String.mk (S.data ++ ':' :: '/' :: '/' ::
            ((netloc u).data ++ (u.path.data ++ '?' :: u.query.data))) := by
        rw [h1, hf]
        unfold urlunparseEmbed
        dsimp only
        rw [if_neg (show ¬(("" : String) ≠ "") by simp)]
        rw [if_pos (show u.query ≠ "" from hq)]
        rw [if_neg (show ¬(("" : String) ≠ "") by simp)]
        rw [if_pos (show S ≠ "" from hSne)]
        rw [if_pos (show (netloc u ≠ "" ∨
          (u.path.data ≠ [] ∧ u.path.data.take 2 = ['/', '/'])) from Or.inl hnetne)]
        rw [if_neg hpathif]
        exact congrArg String.mk (by simp [List.append_assoc])
      have hT := hTx ('?' :: u.query.data) ⟨'?', _, rfl, by decide, by decide⟩
      have hTcl : ∀ c ∈ u.path.data ++ '?' :: u.query.data, cleanChar c = true := by
        intro c hc
        rcases List.mem_append.mp hc with hc | hc
        · exact (hpchars c hc).2.2
        · rcases List.mem_cons.mp hc with rfl | hc
          · decide
          · exact (hqchars c hc).2
      have hb1 : breakAtChar '#' (u.path.data ++ '?' :: u.query.data) =
          (u.path.data ++ '?' :: u.query.data, none) := by
        apply breakAtChar_not_mem
        intro hm
        rcases List.mem_append.mp hm with hm | hm
        · exact hnohashP hm
        · rcases List.mem_cons.mp hm with hm | hm
          · cases hm
          · exact hnohashQ hm
      rw [hu, parseUrl_serialized S c0 cs0 hSd halpha h32 hsch hlow hScl (netloc u).data
        hNnet hNcl hNbr (some h) _ hHP (u.path.data ++ '?' :: u.query.data) hT]
      rw [filter_clean hTcl]
      rw [parseAfterAuthority_generic S hSnf hSng hSng2 (some h) _ _
        (u.path.data ++ '?' :: u.query.data) (u.path.data ++ '?' :: u.query.data)
        u.path.data none (some u.query.data) hb1 (breakAtChar_first hnoqP u.query.data)]
      rw [pyOrNat_port S p hppos]
      rw [if_neg hpne']
      exact ⟨_, rfl, ⟨hs.symm, hhost.symm, hpv.symm⟩, rfl, rfl, hf.symm⟩
    · -- query and fragment
      have hu : get_url u =
          String.mk (S.data ++ ':' :: '/' :: '/' ::
            ((netloc u).data ++
              (u.path.data ++ '?' :: (u.query.data ++ '#' :: u.fragment.data)))) := by
        rw [h1]
        unfold urlunparseEmbed
        dsimp only
        rw [if_pos (show u.fragment ≠ "" from hf)]
        rw [if_pos (show u.query ≠ "" from hq)]
        rw [if_neg (show ¬(("" : String) ≠ "") by simp)]
        rw [if_pos (show S ≠ "" from hSne)]
        rw [if_pos (show (netloc u ≠ "" ∨
          (u.path.data ≠ [] ∧ u.path.data.take 2 = ['/', '/'])) from Or.inl hnetne)]
        rw [if_neg hpathif]
        exact congrArg String.mk (by simp [List.append_assoc])
      have hT := hTx ('?' :: (u.query.data ++ '#' :: u.fragment.data))
        ⟨'?', _, rfl, by decide, by decide⟩
      have hTcl : ∀ c ∈ u.path.data ++ '?' :: (u.query.data ++ '#' :: u.fragment.data),
          cleanChar c = true := by
        intro c hc
        rcases List.mem_append.mp hc with hc | hc
        · exact (hpchars c hc).2.2
        · rcases List.mem_cons.mp hc with rfl | hc
          · decide
          · rcases List.mem_append.mp hc with hc | hc
            · exact (hqchars c hc).2
            · rcases List.mem_cons.mp hc with rfl | hc
              · decide
              · exact hfchars c hc
      have hb1 : breakAtChar '#' (u.path.data ++ '?' :: (u.query.data ++ '#' :: u.fragment.data)) =
          (u.path.data ++ '?' :: u.query.data, some u.fragment.data) := by
        have hnm : '#' ∉ u.path.data ++ '?' :: u.query.data := by
          intro hm
          rcases List.mem_append.mp hm with hm | hm
          · exact hnohashP hm
          · rcases List.mem_cons.mp hm with hm | hm
            · cases hm
            · exact hnohashQ hm
        have hbf := breakAtChar_first hnm u.fragment.data
        rw [show (u.path.data ++ '?' :: u.query.data) ++ '#' :: u.fragment.data =
            u.path.data ++ '?' :: (u.query.data ++ '#' :: u.fragment.data) by simp] at hbf
        exact hbf
      rw [hu, parseUrl_serialized S c0 cs0 hSd halpha h32 hsch hlow hScl (netloc u).data
        hNnet hNcl hNbr (some h) _ hHP
        (u.path.data ++ '?' :: (u.query.data ++ '#' :: u.fragment.data)) hT]
      rw [filter_clean hTcl]
      rw [parseAfterAuthority_generic S hSnf hSng hSng2 (some h) _ _
        (u.path.data ++ '?' :: (u.query.data ++ '#' :: u.fragment.data))
        (u.path.data ++ '?' :: u.query.data) u.path.data
        (some u.fragment.data) (some u.query.data) hb1
        (breakAtChar_first hnoqP u.query.data)]
      rw [pyOrNat_port S p hppos]
      rw [if_neg hpne']
      exact ⟨_, rfl, ⟨hs.symm, hhost.symm, hpv.symm⟩, rfl, rfl, rfl⟩

/-- The finger-request guard is vacuous for any other scheme. -/
theorem ite_and_ne_finger {α : Sort _} (S : String) (hSnf : S ≠ "finger") (n : Nat) (a b : α) :
    (if S = "finger" && n = 4 then a else b) = b := by
  rw [if_neg]
  intro hcc
  rw [Bool.and_eq_true] at hcc
  exact hSnf (of_decide_eq_true hcc.1)

/-- The post-authority tail for a gopher scheme with a nonempty path:
the fourth slash-section starts with the one-character item type, and
the remainder is split on the percent-encoded tab separator twice. -/
theorem parseAfterAuthority_gopher (S : String) (hSnf : S ≠ "finger")
    (hSg : (S = "gopher" || S = "gophers") = true) (hSsl : '/' ∉ S.data)
    (host : Option String) (portOpt : Option Nat) (N : List Char) (hNs2 : '/' ∉ N)
    (ic : Char) (COMBO : List Char) (Tf r3 r4 : List Char)
    (fragOpt queryOpt : Option (List Char))
    (hb1 : breakAtChar '#' Tf = (r3, fragOpt)) (hb2 : breakAtChar '?' r3 = (r4, queryOpt))
    (sel1 sea1 : List Char) (path2 : String)
    (hsp1 : (splitTab COMBO = some (sel1, sea1) ∧ path2 = String.mk sel1) ∨
      (splitTab COMBO = none ∧ sel1 = COMBO ∧ sea1 = [] ∧
        path2 = (if String.mk r4 = "/" then "" else String.mk r4)))
    (sea2 plus2 : List Char)
    (hsp2 : splitTab sea1 = some (sea2, plus2) ∨
      (splitTab sea1 = none ∧ sea2 = sea1 ∧ plus2 = [])) :
    parseAfterAuthority S host portOpt
        (S.data ++ ':' :: '/' :: '/' :: (N ++ '/' :: ic :: COMBO)) Tf =
      { scheme := S, port := pyOrNat portOpt (DEFAULT_PORTS S), hostname := host,
        path := path2, params := "",
        query := String.mk (queryOpt.getD []), fragment := String.mk (fragOpt.getD []),
        finger_request := "", gopher_item_type := String.mk [ic],
        gopher_selector := String.mk sel1, gopher_search := String.mk sea2,
        gopher_plus_string := String.mk plus2 } := by
  unfold parseAfterAuthority
  dsimp only
  rw [hb1]
  dsimp only
  rw [hb2]
  dsimp only
  rw [sections_path S.data N (ic :: COMBO) hSsl hNs2]
  rw [ite_and_ne_finger S hSnf _ _ _]
  rw [if_pos hSg]
  rw [show ([S.data ++ [':'], [], N, ic :: COMBO] : List (List Char)).getD 3 [] = ic :: COMBO
    from rfl]
  dsimp only
  rcases hsp1 with ⟨e1, rfl⟩ | ⟨e1, rfl, rfl, rfl⟩
  · rw [e1]
    dsimp only
    rcases hsp2 with e2 | ⟨e2, rfl, rfl⟩
    · rw [e2]
    · rw [e2]
  · rw [e1]
    dsimp only
    rcases hsp2 with e2 | ⟨e2, rfl, rfl⟩
    · rw [e2]
    · rw [e2]

/-- Round trip for gopher addresses: parsing the serialized form of a
well-formed gopher address recovers the scheme, hostname, resolved
port, item type, selector, search and plus string, except for the one
address shape whose serialization collapses (selector a bare slash
with empty search and plus strings). -/
theorem gopher_round_trip_core (S : String) (hS : S = "gopher" ∨ S = "gophers")
    (u : URLReference) (hs : u.scheme = S) (hwc : wfCommon u)
    (hitem : u.gopher_item_type.data.length = 1)
    (hselT : noTab u.gopher_selector.data)
    (hseaT : noTab u.gopher_search.data)
    (hex : ¬(u.gopher_selector = "/" ∧ u.gopher_search = "" ∧ u.gopher_plus_string = "")) :
    ∃ v, parseUrl (get_url u) = some v ∧ sameCore u v ∧
      v.gopher_item_type = u.gopher_item_type ∧
      v.gopher_selector = u.gopher_selector ∧
      v.gopher_search = u.gopher_search ∧
      v.gopher_plus_string = u.gopher_plus_string := by
  obtain ⟨⟨h, hhost, hhne, hhc⟩, ⟨p, hpv, hppos, hple⟩⟩ := hwc
  have hdne := data_ne_nil hhne
  have hSnf : S ≠ "finger" := by
    rcases hS with rfl | rfl <;> decide
  have hSg : (S = "gopher" || S = "gophers") = true := by
    rcases hS with rfl | rfl <;> decide
  have hSsl : '/' ∉ S.data := by
    rcases hS with rfl | rfl <;> decide
  obtain ⟨cs0, hSd⟩ : ∃ cs0, S.data = 'g' :: cs0 := by
    rcases hS with rfl | rfl
    · exact ⟨['o', 'p', 'h', 'e', 'r'], by decide⟩
    · exact ⟨['o', 'p', 'h', 'e', 'r', 's'], by decide⟩
  have hsch : ∀ c ∈ S.data, isSchemeChar c = true ∧ c ≠ ':' := by
    rcases hS with rfl | rfl <;> decide
  have hlow : S.data.map Char.toLower = S.data := by
    rcases hS with rfl | rfl <;> decide
  have hScl : ∀ c ∈ S.data, cleanChar c = true := by
    rcases hS with rfl | rfl <;> decide
  have h1 : get_url u = S ++ "://" ++ netloc u ++ get_gopher_path u := by
    unfold get_url
    rw [if_neg (show ¬(u.scheme = "finger") by rw [hs]; exact hSnf)]
    rw [if_pos (show (u.scheme = "gopher" ∨ u.scheme = "gophers") by rw [hs]; exact hS)]
    rw [hs]
  have hNdisj : (netloc u).data = h.data ∨ (netloc u).data = h.data ++ ':' :: natDecimal p := by
    by_cases hdef : DEFAULT_PORTS u.scheme = some p
    · left
      rw [netloc_default u h p hhost hpv hdef]
    · right
      exact netloc_nondefault u h p hhost hpv hppos hdef
  have hHP : hostPort (netloc u).data = some (some h,
      if DEFAULT_PORTS S = some p then none else some p) := by
    by_cases hdef : DEFAULT_PORTS S = some p
    · rw [if_pos hdef, netloc_default u h p hhost hpv (by rw [hs]; exact hdef)]
      exact hostPort_plain h hdne hhc
    · rw [if_neg hdef, netloc_nondefault u h p hhost hpv hppos (by rw [hs]; exact hdef)]
      exact hostPort_with_port h p hdne hhc hple
  have hNp := netloc_chars_props hhc (netloc u).data hNdisj
  have hNs : '/' ∉ (netloc u).data := slash_not_mem_netloc hhc (netloc u).data hNdisj
  have hNnet : ∀ c ∈ (netloc u).data, netlocChar c = true := fun c hc => (hNp c hc).1
  have hNcl : ∀ c ∈ (netloc u).data, cleanChar c = true := fun c hc => (hNp c hc).2.1
  have hNbr : ¬ ((netloc u).data.any (fun c => c = '[' || c = ']') = true) := by
    rw [List.any_eq_true]
    rintro ⟨c, hc, hcc⟩
    obtain ⟨-, -, h3, h4⟩ := hNp c hc
    simp only [Bool.or_eq_true, decide_eq_true_eq] at hcc
    rcases hcc with hcc | hcc
    · exact h3 hcc
    · exact h4 hcc
  have hselT' : splitTab u.gopher_selector.data = none := hselT
  have hseaT' : splitTab u.gopher_search.data = none := hseaT
  obtain ⟨ic, hic⟩ : ∃ c, u.gopher_item_type.data = [c] := by
    cases hd : u.gopher_item_type.data with
    | nil =>
      rw [hd] at hitem
      simp at hitem
    | cons a t =>
      cases t with
      | nil => exact ⟨a, rfl⟩
      | cons b t2 =>
        rw [hd] at hitem
        simp at hitem
  by_cases hplus0 : u.gopher_plus_string = ""
  · by_cases hsea0 : u.gopher_search = ""
    · -- search and plus empty: bare selector
      by_cases hsel0 : u.gopher_selector = ""
      · -- empty selector
        by_cases hitem1 : u.gopher_item_type = "1"
        · -- default item type: the whole gopher path vanishes
          have hgp : get_gopher_path u = "" := by
            unfold get_gopher_path
            dsimp only
            rw [if_neg (show ¬(u.gopher_plus_string ≠ "") by simp [hplus0])]
            rw [if_neg (show ¬(u.gopher_search ≠ "") by simp [hsea0])]
            rw [if_neg (show ¬(u.gopher_selector ≠ "" ∧ u.gopher_selector ≠ "/") by
              rintro ⟨a, -⟩
              exact a hsel0)]
            rw [if_neg (show ¬(u.gopher_item_type ≠ "1") by simp [hitem1])]
          have hu : get_url u =
              String.mk (S.data ++ ':' :: '/' :: '/' ::
                ((netloc u).data ++ ([] : List Char))) := by
            rw [h1, hgp]
            apply String.ext
            have e : (S ++ "://" ++ netloc u ++ "").data =
                ((S.data ++ [':', '/', '/']) ++ (netloc u).data) ++ ([] : List Char) := rfl
            rw [e]
            simp [List.append_assoc]
          rw [hu, parseUrl_serialized S 'g' cs0 hSd (by decide) (by decide) hsch hlow hScl
            (netloc u).data hNnet hNcl hNbr (some h) _ hHP [] (Or.inl rfl)]
          have hrec : parseAfterAuthority S (some h)
              (if DEFAULT_PORTS S = some p then none else some p)
              (S.data ++ ':' :: '/' :: '/' :: ((netloc u).data ++ ([] : List Char)))
              (([] : List Char).filter (fun c => !(c = '\t' || c = '\r' || c = '\n'))) =
              { scheme := S, port := some p, hostname := some h, path := "", params := "",
                query := "", fragment := "", finger_request := "", gopher_item_type := "1",
                gopher_selector := "", gopher_search := "", gopher_plus_string := "" } := by
            unfold parseAfterAuthority
            dsimp only
            rw [List.filter_nil]
            rw [show breakAtChar '#' ([] : List Char) =
              (([] : List Char), (none : Option (List Char))) from rfl]
            dsimp only
            rw [show breakAtChar '?' ([] : List Char) =
              (([] : List Char), (none : Option (List Char))) from rfl]
            dsimp only
            rw [pyOrNat_port S p hppos]
            rw [show S.data ++ ':' :: '/' :: '/' :: ((netloc u).data ++ ([] : List Char)) =
                S.data ++ ':' :: '/' :: '/' :: (netloc u).data by simp]
            rw [sections_root S.data (netloc u).data hSsl hNs]
            rw [ite_and_ne_finger S hSnf _ _ _]
            rw [if_pos hSg]
            rw [show ([S.data ++ [':'], [], (netloc u).data] : List (List Char)).getD 3 [] =
              ([] : List Char) from rfl]
            dsimp only
            rw [splitTab.eq_3]
            rfl
          rw [hrec]
          exact ⟨_, rfl, ⟨hs.symm, hhost.symm, hpv.symm⟩, hitem1.symm, hsel0.symm,
            hsea0.symm, hplus0.symm⟩
        · -- non-default item type, empty selector
          have hgp : get_gopher_path u = "/" ++ u.gopher_item_type := by
            unfold get_gopher_path
            dsimp only
            rw [if_neg (show ¬(u.gopher_plus_string ≠ "") by simp [hplus0])]
            rw [if_neg (show ¬(u.gopher_search ≠ "") by simp [hsea0])]
            rw [if_neg (show ¬(u.gopher_selector ≠ "" ∧ u.gopher_selector ≠ "/") by
              rintro ⟨a, -⟩
              exact a hsel0)]
            rw [if_pos (show u.gopher_item_type ≠ "1" from hitem1)]
          have hu : get_url u =
              String.mk (S.data ++ ':' :: '/' :: '/' ::
                ((netloc u).data ++ '/' :: ic :: ([] : List Char))) := by
            rw [h1, hgp]
            apply String.ext
            have e : (S ++ "://" ++ netloc u ++ ("/" ++ u.gopher_item_type)).data =
                ((S.data ++ [':', '/', '/']) ++ (netloc u).data) ++
                  '/' :: u.gopher_item_type.data := rfl
            rw [e, hic]
            simp [List.append_assoc]
          rw [hu, parseUrl_serialized S 'g' cs0 hSd (by decide) (by decide) hsch hlow hScl
            (netloc u).data hNnet hNcl hNbr (some h) _ hHP ('/' :: ic :: [])
            (Or.inr ⟨'/', _, rfl, by decide, by decide⟩)]
          rcases hbk1 : breakAtChar '#'
              (('/' :: ic :: ([] : List Char)).filter
                (fun c => !(c = '\t' || c = '\r' || c = '\n')))
            with ⟨r3, fragOpt⟩
          rcases hbk2 : breakAtChar '?' r3 with ⟨r4, queryOpt⟩
          rw [parseAfterAuthority_gopher S hSnf hSg hSsl (some h) _ (netloc u).data hNs
            ic [] _ r3 r4 fragOpt queryOpt hbk1 hbk2 [] [] _
            (Or.inr ⟨splitTab.eq_3, rfl, rfl, rfl⟩) [] []
            (Or.inr ⟨splitTab.eq_3, rfl, rfl⟩)]
          rw [pyOrNat_port S p hppos]
          exact ⟨_, rfl, ⟨hs.symm, hhost.symm, hpv.symm⟩, String.ext hic.symm, hsel0.symm,
            hsea0.symm, hplus0.symm⟩
      · -- nonempty selector, no search, no plus
        have hselslash : u.gopher_selector ≠ "/" := by
          intro e
          exact hex ⟨e, hsea0, hplus0⟩
        have hgp : get_gopher_path u = "/" ++ u.gopher_item_type ++ u.gopher_selector := by
          unfold get_gopher_path
          dsimp only
          rw [if_neg (show ¬(u.gopher_plus_string ≠ "") by simp [hplus0])]
          rw [if_neg (show ¬(u.gopher_search ≠ "") by simp [hsea0])]
          rw [if_pos (show u.gopher_selector ≠ "" ∧ u.gopher_selector ≠ "/" from
            ⟨hsel0, hselslash⟩)]
        have hu : get_url u =
            String.mk (S.data ++ ':' :: '/' :: '/' ::
              ((netloc u).data ++ '/' :: ic :: u.gopher_selector.data)) := by
          rw [h1, hgp]
          apply String.ext
          have e : (S ++ "://" ++ netloc u ++
              ("/" ++ u.gopher_item_type ++ u.gopher_selector)).data =
              ((S.data ++ [':', '/', '/']) ++ (netloc u).data) ++
                '/' :: (u.gopher_item_type.data ++ u.gopher_selector.data) := rfl
          rw [e, hic]
          simp [List.append_assoc]
        rw [hu, parseUrl_serialized S 'g' cs0 hSd (by decide) (by decide) hsch hlow hScl
          (netloc u).data hNnet hNcl hNbr (some h) _ hHP ('/' :: ic :: u.gopher_selector.data)
          (Or.inr ⟨'/', _, rfl, by decide, by decide⟩)]
        rcases hbk1 : breakAtChar '#'
            (('/' :: ic :: u.gopher_selector.data).filter
              (fun c => !(c = '\t' || c = '\r' || c = '\n')))
          with ⟨r3, fragOpt⟩
        rcases hbk2 : breakAtChar '?' r3 with ⟨r4, queryOpt⟩
        rw [parseAfterAuthority_gopher S hSnf hSg hSsl (some h) _ (netloc u).data hNs
          ic u.gopher_selector.data _ r3 r4 fragOpt queryOpt hbk1 hbk2
          u.gopher_selector.data [] _
          (Or.inr ⟨hselT', rfl, rfl, rfl⟩) [] []
          (Or.inr ⟨splitTab.eq_3, rfl, rfl⟩)]
        rw [pyOrNat_port S p hppos]
        exact ⟨_, rfl, ⟨hs.symm, hhost.symm, hpv.symm⟩, String.ext hic.symm, rfl,
          hsea0.symm, hplus0.symm⟩
    · -- search present, plus empty
      have hcombod : (u.gopher_selector ++ "%09" ++ u.gopher_search).data =
          u.gopher_selector.data ++ '%' :: '0' :: '9' :: u.gopher_search.data := by
        have e : (u.gopher_selector ++ "%09" ++ u.gopher_search).data =
            (u.gopher_selector.data ++ ['%', '0', '9']) ++ u.gopher_search.data := rfl
        rw [e]
        simp [List.append_assoc]
      have hcne : u.gopher_selector ++ "%09" ++ u.gopher_search ≠ "" := by
        intro e
        have h2 : u.gopher_selector.data ++ '%' :: '0' :: '9' :: u.gopher_search.data =
            ([] : List Char) := by
          rw [← hcombod, e]
        have h3 := congrArg List.length h2
        simp [List.length_append] at h3
      have hcns : u.gopher_selector ++ "%09" ++ u.gopher_search ≠ "/" := by
        intro e
        have h2 : u.gopher_selector.data ++ '%' :: '0' :: '9' :: u.gopher_search.data =
            ['/'] := by
          rw [← hcombod, e]
        have h3 := congrArg List.length h2
        simp [List.length_append] at h3
        omega
      have hgp : get_gopher_path u = "/" ++ u.gopher_item_type ++
          (u.gopher_selector ++ "%09" ++ u.gopher_search) := by
        unfold get_gopher_path
        dsimp only
        rw [if_neg (show ¬(u.gopher_plus_string ≠ "") by simp [hplus0])]
        rw [if_pos (show u.gopher_search ≠ "" from hsea0)]
        rw [if_pos (show u.gopher_selector ++ "%09" ++ u.gopher_search ≠ "" ∧
          u.gopher_selector ++ "%09" ++ u.gopher_search ≠ "/" from ⟨hcne, hcns⟩)]
      have hu : get_url u =
          String.mk (S.data ++ ':' :: '/' :: '/' ::
            ((netloc u).data ++ '/' :: ic ::
              (u.gopher_selector.data ++ '%' :: '0' :: '9' :: u.gopher_search.data))) := by
        rw [h1, hgp]
        apply String.ext
        have e : (S ++ "://" ++ netloc u ++
            ("/" ++ u.gopher_item_type ++ (u.gopher_selector ++ "%09" ++ u.gopher_search))).data =
            ((S.data ++ [':', '/', '/']) ++ (netloc u).data) ++
              '/' :: (u.gopher_item_type.data ++
                (u.gopher_selector ++ "%09" ++ u.gopher_search).data) := rfl
        rw [e, hic, hcombod]
        simp [List.append_assoc]
      rw [hu, parseUrl_serialized S 'g' cs0 hSd (by decide) (by decide) hsch hlow hScl
        (netloc u).data hNnet hNcl hNbr (some h) _ hHP
        ('/' :: ic :: (u.gopher_selector.data ++ '%' :: '0' :: '9' :: u.gopher_search.data))
        (Or.inr ⟨'/', _, rfl, by decide, by decide⟩)]
      rcases hbk1 : breakAtChar '#'
          (('/' :: ic ::
            (u.gopher_selector.data ++ '%' :: '0' :: '9' :: u.gopher_search.data)).filter
            (fun c => !(c = '\t' || c = '\r' || c = '\n')))
        with ⟨r3, fragOpt⟩
      rcases hbk2 : breakAtChar '?' r3 with ⟨r4, queryOpt⟩
      rw [parseAfterAuthority_gopher S hSnf hSg hSsl (some h) _ (netloc u).data hNs
        ic (u.gopher_selector.data ++ '%' :: '0' :: '9' :: u.gopher_search.data) _ r3 r4
        fragOpt queryOpt hbk1 hbk2 u.gopher_selector.data u.gopher_search.data _
        (Or.inl ⟨splitTab_append u.gopher_search.data u.gopher_selector.data hselT', rfl⟩)
        u.gopher_search.data []
        (Or.inr ⟨hseaT', rfl, rfl⟩)]
      rw [pyOrNat_port S p hppos]
      exact ⟨_, rfl, ⟨hs.symm, hhost.symm, hpv.symm⟩, String.ext hic.symm, rfl, rfl,
        hplus0.symm⟩
  · -- plus string present
    have hcombod : (u.gopher_selector ++ "%09" ++ u.gopher_search ++ "%09" ++
        u.gopher_plus_string).data =
        u.gopher_selector.data ++ '%' :: '0' :: '9' ::
          (u.gopher_search.data ++ '%' :: '0' :: '9' :: u.gopher_plus_string.data) := by
      have e : (u.gopher_selector ++ "%09" ++ u.gopher_search ++ "%09" ++
          u.gopher_plus_string).data =
          (((u.gopher_selector.data ++ ['%', '0', '9']) ++ u.gopher_search.data) ++
            ['%', '0', '9']) ++ u.gopher_plus_string.data := rfl
      rw [e]
      simp [List.append_assoc]
    have hcne : u.gopher_selector ++ "%09" ++ u.gopher_search ++ "%09" ++
        u.gopher_plus_string ≠ "" := by
      intro e
      have h2 : u.gopher_selector.data ++ '%' :: '0' :: '9' ::
          (u.gopher_search.data ++ '%' :: '0' :: '9' :: u.gopher_plus_string.data) =
          ([] : List Char) := by
        rw [← hcombod, e]
      have h3 := congrArg List.length h2
      simp [List.length_append] at h3
    have hcns : u.gopher_selector ++ "%09" ++ u.gopher_search ++ "%09" ++
        u.gopher_plus_string ≠ "/" := by
      intro e
      have h2 : u.gopher_selector.data ++ '%' :: '0' :: '9' ::
          (u.gopher_search.data ++ '%' :: '0' :: '9' :: u.gopher_plus_string.data) =
          ['/'] := by
        rw [← hcombod, e]
      have h3 := congrArg List.length h2
      simp [List.length_append] at h3
      omega
    have hgp : get_gopher_path u = "/" ++ u.gopher_item_type ++
        (u.gopher_selector ++ "%09" ++ u.gopher_search ++ "%09" ++ u.gopher_plus_string) := by
      unfold get_gopher_path
      dsimp only
      rw [if_pos (show u.gopher_plus_string ≠ "" from hplus0)]
      rw [if_pos (show u.gopher_selector ++ "%09" ++ u.gopher_search ++ "%09" ++
        u.gopher_plus_string ≠ "" ∧
        u.gopher_selector ++ "%09" ++ u.gopher_search ++ "%09" ++
          u.gopher_plus_string ≠ "/" from ⟨hcne, hcns⟩)]
    have hu : get_url u =
        String.mk (S.data ++ ':' :: '/' :: '/' ::
          ((netloc u).data ++ '/' :: ic ::
            (u.gopher_selector.data ++ '%' :: '0' :: '9' ::
              (u.gopher_search.data ++ '%' :: '0' :: '9' ::
                u.gopher_plus_string.data)))) := by
      rw [h1, hgp]
      apply String.ext
      have e : (S ++ "://" ++ netloc u ++
          ("/" ++ u.gopher_item_type ++ (u.gopher_selector ++ "%09" ++ u.gopher_search ++
            "%09" ++ u.gopher_plus_string))).data =
          ((S.data ++ [':', '/', '/']) ++ (netloc u).data) ++
            '/' :: (u.gopher_item_type.data ++
              (u.gopher_selector ++ "%09" ++ u.gopher_search ++ "%09" ++
                u.gopher_plus_string).data) := rfl
      rw [e, hic, hcombod]
      simp [List.append_assoc]
    rw [hu, parseUrl_serialized S 'g' cs0 hSd (by decide) (by decide) hsch hlow hScl
      (netloc u).data hNnet hNcl hNbr (some h) _ hHP
      ('/' :: ic :: (u.gopher_selector.data ++ '%' :: '0' :: '9' ::
        (u.gopher_search.data ++ '%' :: '0' :: '9' :: u.gopher_plus_string.data)))
      (Or.inr ⟨'/', _, rfl, by decide, by decide⟩)]
    rcases hbk1 : breakAtChar '#'
        (('/' :: ic :: (u.gopher_selector.data ++ '%' :: '0' :: '9' ::
          (u.gopher_search.data ++ '%' :: '0' :: '9' :: u.gopher_plus_string.data))).filter
          (fun c => !(c = '\t' || c = '\r' || c = '\n')))
      with ⟨r3, fragOpt⟩
    rcases hbk2 : breakAtChar '?' r3 with ⟨r4, queryOpt⟩
    rw [parseAfterAuthority_gopher S hSnf hSg hSsl (some h) _ (netloc u).data hNs
      ic (u.gopher_selector.data ++ '%' :: '0' :: '9' ::
        (u.gopher_search.data ++ '%' :: '0' :: '9' :: u.gopher_plus_string.data)) _ r3 r4
      fragOpt queryOpt hbk1 hbk2 u.gopher_selector.data
      (u.gopher_search.data ++ '%' :: '0' :: '9' :: u.gopher_plus_string.data) _
      (Or.inl ⟨splitTab_append
        (u.gopher_search.data ++ '%' :: '0' :: '9' :: u.gopher_plus_string.data)
        u.gopher_selector.data hselT', rfl⟩)
      u.gopher_search.data u.gopher_plus_string.data
      (Or.inl (splitTab_append u.gopher_plus_string.data u.gopher_search.data hseaT'))]
    rw [pyOrNat_port S p hppos]
    exact ⟨_, rfl, ⟨hs.symm, hhost.symm, hpv.symm⟩, String.ext hic.symm, rfl, rfl, rfl⟩

/-- C8 (amended): for every well-formed parsed address of a supported
scheme, parsing the serialized form yields an address that agrees on
scheme, hostname and resolved port, and additionally on path, query
and fragment for the generic hierarchical schemes (gemini, spartan,
text, nex), on the finger request for finger, and on the gopher item
type, selector, search and plus string for gopher and gophers - with
the one exception, excluded here and exhibited by the counterexample,
of a gopher address whose selector is the bare slash with empty search
and plus strings, whose serialization collapses to the bare authority
and re-parses with an empty selector. -/
theorem c8_round_trip (u : URLReference) :
    (wfGeneric u → ∃ v, parseUrl (get_url u) = some v ∧ sameCore u v ∧
        v.path = u.path ∧ v.query = u.query ∧ v.fragment = u.fragment) ∧
    (wfFinger u → ∃ v, parseUrl (get_url u) = some v ∧ sameCore u v ∧
        v.finger_request = u.finger_request) ∧
    (wfGopher u →
      ¬(u.gopher_selector = "/" ∧ u.gopher_search = "" ∧ u.gopher_plus_string = "") →
      ∃ v, parseUrl (get_url u) = some v ∧ sameCore u v ∧
        v.gopher_item_type = u.gopher_item_type ∧
        v.gopher_selector = u.gopher_selector ∧
        v.gopher_search = u.gopher_search ∧
        v.gopher_plus_string = u.gopher_plus_string) := by
  refine ⟨?_, ?_, ?_⟩
  · rintro ⟨hsch, hwc, hpath, hpne, hpchars, hparams, hqchars, hfchars⟩
    rcases hsch with hs | hs | hs | hs
    · exact generic_round_trip_core "gemini" 'g' ['e', 'm', 'i', 'n', 'i'] (by decide)
        (by decide) (by decide) (by decide) (by decide) (by decide) (by decide) (by decide)
        (by decide) (by decide) u hs hwc hpath hpne hpchars hparams hqchars hfchars
    · exact generic_round_trip_core "spartan" 's' ['p', 'a', 'r', 't', 'a', 'n'] (by decide)
        (by decide) (by decide) (by decide) (by decide) (by decide) (by decide) (by decide)
        (by decide) (by decide) u hs hwc hpath hpne hpchars hparams hqchars hfchars
    · exact generic_round_trip_core "text" 't' ['e', 'x', 't'] (by decide)
        (by decide) (by decide) (by decide) (by decide) (by decide) (by decide) (by decide)
        (by decide) (by decide) u hs hwc hpath hpne hpchars hparams hqchars hfchars
    · exact generic_round_trip_core "nex" 'n' ['e', 'x'] (by decide)
        (by decide) (by decide) (by decide) (by decide) (by decide) (by decide) (by decide)
        (by decide) (by decide) u hs hwc hpath hpne hpchars hparams hqchars hfchars
  · exact finger_round_trip u
  · rintro ⟨hsch, hwc, hitem, hselT, hseaT⟩ hex
    exact gopher_round_trip_core u.scheme hsch u rfl hwc hitem hselT hseaT hex

/-- Witness for C8: the round trip applied to one concrete
well-formed address of each group. -/
theorem c8_round_trip_witness :
    (∃ v, parseUrl (get_url c8WitnessAddr) = some v ∧ sameCore c8WitnessAddr v ∧
      v.path = c8WitnessAddr.path ∧ v.query = c8WitnessAddr.query ∧
      v.fragment = c8WitnessAddr.fragment) ∧
    (∃ v, parseUrl (get_url c8WitnessFinger) = some v ∧ sameCore c8WitnessFinger v ∧
      v.finger_request = c8WitnessFinger.finger_request) ∧
    (∃ v, parseUrl (get_url c8WitnessGopher) = some v ∧ sameCore c8WitnessGopher v ∧
      v.gopher_item_type = c8WitnessGopher.gopher_item_type ∧
      v.gopher_selector = c8WitnessGopher.gopher_selector ∧
      v.gopher_search = c8WitnessGopher.gopher_search ∧
      v.gopher_plus_string = c8WitnessGopher.gopher_plus_string) := by
  refine ⟨?_, ?_, ?_⟩
  · exact (c8_round_trip c8WitnessAddr).1
      ⟨Or.inl rfl, ⟨⟨"mozz.us", rfl, by decide, by decide⟩, ⟨1965, rfl, by decide, by decide⟩⟩,
        Or.inr (by decide), by decide, by decide, rfl, by decide, by decide⟩
  · exact (c8_round_trip c8WitnessFinger).2.1
      ⟨rfl, ⟨⟨"mozz.us", rfl, by decide, by decide⟩, ⟨79, rfl, by decide, by decide⟩⟩⟩
  · exact (c8_round_trip c8WitnessGopher).2.2
      ⟨Or.inl rfl, ⟨⟨"mozz.us", rfl, by decide, by decide⟩, ⟨70, rfl, by decide, by decide⟩⟩,
        by decide,
        (by decide : splitTab c8WitnessGopher.gopher_selector.data = none),
        (by decide : splitTab c8WitnessGopher.gopher_search.data = none)⟩
      (by decide)

end GeminiPortal
